import Mathlib

/-!
Shallow embedding of the WeensyOS kernel core (src/kernel.cc): the
reference-counted physical frame allocator (`kalloc`/`kfree`), process
image loading (`process_setup`), fork (`syscall_fork`), exit/teardown
(`syscall_exit`), user page allocation (`syscall_page_alloc`) and the
system-call dispatcher, together with theorems checking the claims of
the specification against this embedding.

Machine integers: physical/virtual addresses and permission bits are
`Nat`; the per-frame reference count is an unsigned machine integer,
modelled as a `Nat` that wraps modulo `RCMOD` on increment/decrement.
Memory is a function from physical byte address to byte value.

The page-table walker (`vmiter`/`ptiter`), `kalloc_pagetable` and the
memory-layout constants live in headers that are not part of the
repository snapshot; they are modelled from the spec as noted on each
definition.  Everything else is translated directly from src/kernel.cc.
-/

namespace Weensy

set_option maxRecDepth 8000

/-- Modelled from the spec: `PAGESIZE = 4096` (§6, memory layout constants). -/
def PAGESIZE : Nat := 4096

/-- Modelled from the spec: upper bound of physical memory (kernel.hh is not in
the snapshot; the layout comment in kernel.cc shows applications from
0x100000 up, WeensyOS physical memory ends at 0x200000). -/
def MEMSIZE_PHYSICAL : Nat := 0x200000

/-- Modelled from the spec: `NPAGES = MEMSIZE_PHYSICAL / PAGESIZE` (§6). -/
def NPAGES : Nat := MEMSIZE_PHYSICAL / PAGESIZE

/-- Modelled from the spec: per-process virtual address space bound. -/
def MEMSIZE_VIRTUAL : Nat := 0x300000

/-- Modelled from the spec and the layout comment in kernel.cc:
`PROC_START_ADDR = 0x100000`, first address available to user processes. -/
def PROC_START_ADDR : Nat := 0x100000

/-- Modelled from the spec: the single user-accessible frame inside the kernel
range (the CGA console cell at physical 0xB8000). -/
def CONSOLE_ADDR : Nat := 0xB8000

/-- Modelled from the spec: fixed upper bound on process slots, slot 0 unused. -/
def NPROC : Nat := 16

/-- Permission bit: present. -/
def PTE_P : Nat := 1

/-- Permission bit: writable. -/
def PTE_W : Nat := 2

/-- Permission bit: user-accessible. -/
def PTE_U : Nat := 4

/-- Modelled from the spec: the refcount field is an unsigned machine integer
("`refcount`: unsigned count", §3); its exact width lives in the missing
kernel.hh, modelled here as 32 bits.  Arithmetic on it wraps modulo `RCMOD`. -/
def RCMOD : Nat := 2 ^ 32

/-- Test the writable permission bit of a page-table entry. -/
def permW (perm : Nat) : Bool := perm.testBit 1

/-- Test the user permission bit of a page-table entry. -/
def permU (perm : Nat) : Bool := perm.testBit 2

/-- Pointwise update of a `Nat`-indexed table. -/
def setrc (f : Nat → Nat) (i v : Nat) : Nat → Nat :=
  fun j => if j = i then v else f j

/-- C `memset(dst, v, n)` on flat physical memory. -/
def memsetRange (m : Nat → Nat) (dst n v : Nat) : Nat → Nat :=
  fun a => if dst ≤ a ∧ a < dst + n then v else m a

/-- C `memcpy(dst, src, n)` between two non-overlapping physical ranges of the
same flat memory (as in `syscall_fork`, where the destination frame is fresh). -/
def memcpyPhys (m : Nat → Nat) (dst src n : Nat) : Nat → Nat :=
  fun a => if dst ≤ a ∧ a < dst + n then m (src + (a - dst)) else m a

/-- C `memcpy(dst, src, n)` where the source is external data (a program
segment's initialized bytes, indexed from 0). -/
def memcpyData (m : Nat → Nat) (dst : Nat) (src : Nat → Nat) (n : Nat) : Nat → Nat :=
  fun a => if dst ≤ a ∧ a < dst + n then src (a - dst) else m a

/-- Process states of kernel.hh (`P_FREE`, `P_RUNNABLE`, `P_FAULTED`,
`P_BROKEN`), as used by kernel.cc. -/
inductive PState where
  | FREE
  | RUNNABLE
  | FAULTED
  | BROKEN
deriving DecidableEq

/-- The saved register fields of `regstate` that kernel.cc reads or writes
(`reg_rax`, `reg_rip`, `reg_rsp`, `reg_rdi`). -/
structure Regs where
  rax : Int
  rip : Nat
  rsp : Nat
  rdi : Nat
deriving DecidableEq

/-- Modelled from the spec: an address space as exposed by the page-table
iterators (§6) — the root frame, the interior (non-root) page-table frames
(one leaf-level table per 2 MiB region, allocated on demand by the mapping
primitive), and the leaf map from page-aligned virtual address to physical
address and permission bits (`none` is the iterator's distinguished
no-physical-page marker). -/
structure AddrSpace where
  root : Nat
  tables : List (Nat × Nat)
  entries : Nat → Option (Nat × Nat)

/-- Span of one leaf-level page table: 512 entries of `PAGESIZE` bytes. -/
def REGION : Nat := 512 * PAGESIZE

/-- The physical address of a leaf entry as `vmiter::pa()` exposes it:
`none` stands for the sentinel value `(uint64_t) -1` for absent slots. -/
def entryPa : Option (Nat × Nat) → Option Nat
  | some (pa, _) => some pa
  | none => none

/-- The permission bits of a leaf entry as `vmiter::perm()` exposes them
(0 for an absent slot). -/
def entryPerm : Option (Nat × Nat) → Nat
  | some (_, perm) => perm
  | none => 0

/-- A process descriptor (`struct proc`): pid, saved registers, state and
the owned page-table root (null ↔ `none`). -/
structure Proc where
  pid : Nat
  regs : Regs
  state : PState
  pagetable : Option AddrSpace

/-- The kernel state that kernel.cc mutates: the frame table `physpages`
(refcount per frame index), flat physical memory, the process table, the
current process id, and the canonical kernel page table built at boot. -/
structure Kernel where
  physpages : Nat → Nat
  mem : Nat → Nat
  ptable : Nat → Proc
  currentPid : Nat
  kernel_pt : AddrSpace

/-- Modelled from the spec: `allocatable(pa)` — kernel code/data, the I/O
hole and BIOS below `PROC_START_ADDR` are reserved; frames of the
application region `[PROC_START_ADDR, MEMSIZE_PHYSICAL)` are allocatable
(§3, §6 and the layout comment at the top of kernel.cc). -/
def allocatable_physical_address (pa : Nat) : Bool :=
  decide (PROC_START_ADDR ≤ pa) && decide (pa < MEMSIZE_PHYSICAL)

/-- The scan of `kalloc`: from physical address `pa` upward in steps of
`PAGESIZE`, the first allocatable frame with refcount 0 (`fuel` counts the
remaining frames up to `MEMSIZE_PHYSICAL`). -/
def firstFreeFrom (st : Kernel) (pa : Nat) : Nat → Option Nat
  | 0 => none
  | fuel + 1 =>
    if allocatable_physical_address pa && (st.physpages (pa / PAGESIZE) == 0)
    then some pa
    else firstFreeFrom st (pa + PAGESIZE) fuel

/-- `kalloc(sz)` of kernel.cc: fails if `sz > PAGESIZE`; otherwise takes the
first allocatable free frame scanning from physical address 0, increments
its refcount (0 → 1) and fills the frame with the byte 0xCC. -/
def kalloc (sz : Nat) (st : Kernel) : Option Nat × Kernel :=
  if PAGESIZE < sz then (none, st)
  else
    match firstFreeFrom st 0 NPAGES with
    | none => (none, st)
    | some pa =>
      (some pa,
        { st with
          physpages := setrc st.physpages (pa / PAGESIZE)
            ((st.physpages (pa / PAGESIZE) + 1) % RCMOD),
          mem := memsetRange st.mem pa PAGESIZE 0xCC })

/-- `kfree(kptr)` of kernel.cc: does nothing for the null pointer, otherwise
decrements `physpages[kptr / PAGESIZE].refcount` unconditionally (the
unsigned decrement wraps modulo `RCMOD`). -/
def kfree (st : Kernel) (kptr : Nat) : Kernel :=
  if kptr = 0 then st
  else
    { st with
      physpages := setrc st.physpages (kptr / PAGESIZE)
        ((st.physpages (kptr / PAGESIZE) + (RCMOD - 1)) % RCMOD) }

/-- Point update of a leaf-entry map. -/
def entriesUpdate (f : Nat → Option (Nat × Nat)) (va : Nat)
    (e : Option (Nat × Nat)) : Nat → Option (Nat × Nat) :=
  fun v => if v = va then e else f v

/-- Modelled from the spec: `vmiter::try_map(pa, perm)` (§6, §4.C).  With
permission 0 there is no present mapping to install and nothing is written
or allocated (this covers the sentinel pair `pa = -1, perm = 0` that the
iterator reports for absent slots).  Otherwise the leaf-level table for the
2 MiB region of `va` is allocated through `kalloc` if missing — the only
way `try_map` can fail — and the leaf entry is written.  In kernel.cc the
physical argument is the sentinel only when the permission argument is 0,
so the `getD` default is never consulted on states reachable from it. -/
def vm_try_map (st : Kernel) (asp : AddrSpace) (va : Nat) (pa? : Option Nat)
    (perm : Nat) : Except Kernel (Kernel × AddrSpace) :=
  if perm = 0 then Except.ok (st, asp)
  else if (asp.tables.find? (fun rt => rt.1 == va / REGION)).isSome then
    Except.ok (st,
      { asp with entries := entriesUpdate asp.entries va (some (pa?.getD 0, perm)) })
  else
    match kalloc PAGESIZE st with
    | (none, st') => Except.error st'
    | (some tpa, st') =>
      Except.ok (st',
        { asp with
          tables := (va / REGION, tpa) :: asp.tables,
          entries := entriesUpdate asp.entries va (some (pa?.getD 0, perm)) })

/-- Modelled from the spec: `kalloc_pagetable()` (declared in the missing
kernel.hh) — allocate a fresh, zeroed root page-table frame (§4.C allocates
the root; the kernel-range mappings are installed by the callers in
kernel.cc). -/
def kalloc_pagetable (st : Kernel) : Option AddrSpace × Kernel :=
  match kalloc PAGESIZE st with
  | (none, st') => (none, st')
  | (some pa, st') =>
    (some ⟨pa, [], fun _ => none⟩, { st' with mem := memsetRange st'.mem pa PAGESIZE 0 })

/-- The page-aligned virtual addresses `0, PAGESIZE, …` below
`MEMSIZE_VIRTUAL`, in the order the `vmiter` loops of kernel.cc visit them. -/
def vaPages : List Nat := (List.range (MEMSIZE_VIRTUAL / PAGESIZE)).map (· * PAGESIZE)

/-- One iteration of the leaf loop of `syscall_exit`: frees the mapped frame
when the entry is user-accessible and the address is not the console cell. -/
def exitLeafStep (pt : AddrSpace) (st : Kernel) (va : Nat) : Kernel :=
  match pt.entries va with
  | some (pa, perm) =>
    if permU perm && !(va == CONSOLE_ADDR) then kfree st pa else st
  | none => st

/-- The final statement of `syscall_exit`: `process->state = P_FREE` (and,
as in the source, nothing else — the `pagetable` field is left untouched). -/
def markFree (st : Kernel) (pid : Nat) : Kernel :=
  { st with
    ptable := fun i =>
      if i = pid then { st.ptable i with state := PState.FREE } else st.ptable i }

/-- The body of `syscall_exit` for a process with page table `pt`: free every
user-accessible leaf frame except the console cell (the `vmiter` loop),
then every interior page-table frame (the `ptiter` loop), then the root,
and mark the descriptor `P_FREE`. -/
def syscall_exit_core (st : Kernel) (pid : Nat) (pt : AddrSpace) : Kernel :=
  markFree
    (kfree
      (pt.tables.foldl (fun s rt => kfree s rt.2)
        (vaPages.foldl (exitLeafStep pt) st))
      pt.root)
    pid

/-- `syscall_exit(process)` of kernel.cc.  The source dereferences the
process's page table unconditionally; the model is only invoked on
descriptors whose `pagetable` is non-null, and leaves the state unchanged
otherwise. -/
def syscall_exit (st : Kernel) (pid : Nat) : Kernel :=
  match (st.ptable pid).pagetable with
  | none => st
  | some pt => syscall_exit_core st pid pt

/-- Which step of the fork loop failed (ghost information: `syscall_fork`
erases it; it only identifies the failing source line). -/
inductive ForkFailKind where
  | mapKernel
  | allocCopy
  | mapCopy
  | mapShare
  | mapOther
deriving DecidableEq

/-- Increment a frame's refcount (`++physpages[pa / PAGESIZE].refcount`). -/
def incRef (st : Kernel) (pa : Nat) : Kernel :=
  { st with
    physpages := setrc st.physpages (pa / PAGESIZE)
      ((st.physpages (pa / PAGESIZE) + 1) % RCMOD) }

/-- One iteration of the fork loop of kernel.cc over the parallel parent and
child iterators at virtual address `va`. -/
def forkStep (parent : AddrSpace) (va : Nat) :
    Kernel × AddrSpace →
    Except (ForkFailKind × Kernel × AddrSpace) (Kernel × AddrSpace)
  | (st, child) =>
    if va < PROC_START_ADDR then
      match vm_try_map st child va (entryPa (parent.entries va))
          (entryPerm (parent.entries va)) with
      | Except.error stf => Except.error (ForkFailKind.mapKernel, stf, child)
      | Except.ok r => Except.ok r
    else if permW (entryPerm (parent.entries va))
        && permU (entryPerm (parent.entries va)) then
      match kalloc PAGESIZE st with
      | (none, stf) => Except.error (ForkFailKind.allocCopy, stf, child)
      | (some pa, st1) =>
        match vm_try_map
            { st1 with mem := (memcpyPhys st1.mem pa
                ((entryPa (parent.entries va)).getD 0) PAGESIZE) }
            child va (some pa) (entryPerm (parent.entries va)) with
        | Except.error stf => Except.error (ForkFailKind.mapCopy, stf, child)
        | Except.ok r => Except.ok r
    else if !permW (entryPerm (parent.entries va))
        && permU (entryPerm (parent.entries va)) then
      match vm_try_map st child va (entryPa (parent.entries va))
          (entryPerm (parent.entries va)) with
      | Except.error stf => Except.error (ForkFailKind.mapShare, stf, child)
      | Except.ok (st1, child1) =>
        if (entryPa (parent.entries va)).isSome then
          Except.ok (incRef st1 ((entryPa (parent.entries va)).getD 0), child1)
        else
          Except.ok (st1, child1)
    else
      match vm_try_map st child va (entryPa (parent.entries va))
          (entryPerm (parent.entries va)) with
      | Except.error stf => Except.error (ForkFailKind.mapOther, stf, child)
      | Except.ok r => Except.ok r

/-- The fork loop over a list of virtual page addresses, stopping at the
first failing step. -/
def forkLoop (parent : AddrSpace) :
    List Nat → Kernel × AddrSpace →
    Except (ForkFailKind × Kernel × AddrSpace) (Kernel × AddrSpace)
  | [], acc => Except.ok acc
  | va :: rest, acc =>
    match forkStep parent va acc with
    | Except.error e => Except.error e
    | Except.ok acc' => forkLoop parent rest acc'

/-- Write a process's `pagetable` field. -/
def setPagetable (st : Kernel) (pid : Nat) (pt : Option AddrSpace) : Kernel :=
  { st with
    ptable := fun i =>
      if i = pid then { st.ptable i with pagetable := pt } else st.ptable i }

/-- The scan of `syscall_fork` for the first free slot in `[1, NPROC)`. -/
def findFreeSlot (st : Kernel) : Option Nat :=
  ((List.range NPROC).drop 1).find? (fun i => (st.ptable i).state == PState.FREE)

/-- Outcome of one run of `syscall_fork`, with the failure position kept as
ghost information (erased by `syscall_fork` itself). -/
inductive ForkOutcome where
  | noSlot
  | noRoot (st : Kernel)
  | failMid (k : ForkFailKind) (st : Kernel)
  | done (pid : Nat) (st : Kernel)

/-- The successful tail of the fork loop: store the finished child table in
the descriptor, copy the parent's saved registers with `rax = 0`, set the
pid field and mark the child `P_RUNNABLE`. -/
def forkFinish (st2 : Kernel) (pid : Nat) (childF : AddrSpace) : Kernel :=
  { st2 with
    ptable := fun i =>
      if i = pid then
        { st2.ptable i with
          pagetable := some childF,
          regs := { (st2.ptable st2.currentPid).regs with rax := 0 },
          pid := pid,
          state := PState.RUNNABLE }
      else st2.ptable i }

/-- `syscall_fork()` of kernel.cc: find the first free descriptor, allocate a
root page table for it (storing the result in the descriptor even when
null), walk the parent's address space over `[0, MEMSIZE_VIRTUAL)` copying
or sharing each mapping, and on any mid-loop failure run `syscall_exit` on
the partially built child.  On success the parent's registers are copied
into the child with `rax = 0` and the child becomes runnable. -/
def forkRun (st : Kernel) : ForkOutcome :=
  match findFreeSlot st with
  | none => ForkOutcome.noSlot
  | some pid =>
    match kalloc_pagetable st with
    | (none, st1) => ForkOutcome.noRoot (setPagetable st1 pid none)
    | (some child0, st1) =>
      match forkLoop (((st.ptable st.currentPid).pagetable).getD ⟨0, [], fun _ => none⟩)
          vaPages (setPagetable st1 pid (some child0), child0) with
      | Except.error (k, stf, childf) =>
        ForkOutcome.failMid k (syscall_exit (setPagetable stf pid (some childf)) pid)
      | Except.ok (st2, childF) => ForkOutcome.done pid (forkFinish st2 pid childF)

/-- The `int` result and final state of `syscall_fork()`. -/
def syscall_fork (st : Kernel) : Int × Kernel :=
  match forkRun st with
  | ForkOutcome.noSlot => (-1, st)
  | ForkOutcome.noRoot st' => (-1, st')
  | ForkOutcome.failMid _ st' => (-1, st')
  | ForkOutcome.done pid st' => ((pid : Int), st')

/-- `syscall_page_alloc(addr)` of kernel.cc: reject misaligned or
out-of-range addresses, allocate a frame (−1 when none), map it at `addr`
with `PTE_P | PTE_W | PTE_U`, and zero it.  No `kfree` is issued for a
previously existing mapping at `addr`.  The source requires the current
process's page table to be non-null; the `getD` default is never consulted
on such states. -/
def syscall_page_alloc (st : Kernel) (addr : Nat) : Int × Kernel :=
  if addr < PROC_START_ADDR ∨ MEMSIZE_VIRTUAL ≤ addr ∨ addr % 4096 ≠ 0 then (-1, st)
  else
    let asp := ((st.ptable st.currentPid).pagetable).getD ⟨0, [], fun _ => none⟩
    match kalloc PAGESIZE st with
    | (none, st1) => (-1, st1)
    | (some pa, st1) =>
      match vm_try_map st1 asp addr (some pa) (PTE_P + PTE_W + PTE_U) with
      | Except.error stf => (-1, stf)
      | Except.ok (st2, asp') =>
        (0,
          { st2 with
            mem := memsetRange st2.mem pa PAGESIZE 0,
            ptable := fun i =>
              if i = st.currentPid then { st2.ptable i with pagetable := some asp' }
              else st2.ptable i })

/-- Modelled from the spec: a loadable segment of a program image as
`program_image` exposes it (§6): `va, size, data, data_size, writable`. -/
structure Segment where
  va : Nat
  size : Nat
  data : Nat → Nat
  data_size : Nat
  writable : Bool

/-- Modelled from the spec: a program image — its loadable segments and its
entry point. -/
structure ProgramImage where
  segs : List Segment
  entry : Nat

/-- The physical byte address backing virtual address `va` in an address
space, as `vmiter::pa()` reports it after `find(va)` (page frame plus page
offset); `none` is the sentinel for an unmapped page. -/
def paOf (asp : AddrSpace) (va : Nat) : Option Nat :=
  match asp.entries (va / PAGESIZE * PAGESIZE) with
  | some (pa, _) => some (pa + va % PAGESIZE)
  | none => none

/-- A user-mode byte read through a process's page table. -/
def userRead (st : Kernel) (pid : Nat) (va : Nat) : Option Nat :=
  match (st.ptable pid).pagetable with
  | none => none
  | some pt => (paOf pt va).map st.mem

/-- The page-aligned virtual addresses covering `[seg.va, seg.va + seg.size)`
in the order the segment-mapping loop of `process_setup` visits them. -/
def segPages (seg : Segment) : List Nat :=
  let lo := seg.va / PAGESIZE * PAGESIZE
  (List.range ((seg.va + seg.size - lo + (PAGESIZE - 1)) / PAGESIZE)).map
    (fun k => lo + k * PAGESIZE)

/-- The segment-mapping loop body of `process_setup`: allocate a frame for
each page of the segment and map it `PTE_P | PTE_U`, plus `PTE_W` iff the
segment is writable.  `none` models the `panic("Out of memory!")` on
allocation failure and the assertion of `vmiter::map` on mapping failure. -/
def mapSegPages (st : Kernel) (asp : AddrSpace) (pages : List Nat) (wr : Bool) :
    Option (Kernel × AddrSpace) :=
  pages.foldl
    (fun acc a =>
      match acc with
      | none => none
      | some (s, pt) =>
        match kalloc PAGESIZE s with
        | (none, _) => none
        | (some pa, s1) =>
          match vm_try_map s1 pt a (some pa) (if wr then PTE_W + PTE_P + PTE_U else PTE_P + PTE_U) with
          | Except.error _ => none
          | Except.ok r => some r)
    (some (st, asp))

/-- The page-aligned virtual addresses below `PROC_START_ADDR`, in the order
the kernel-mapping copy loop of `process_setup` visits them. -/
def kernelPages : List Nat := (List.range (PROC_START_ADDR / PAGESIZE)).map (· * PAGESIZE)

/-- The kernel-range copy loop of `process_setup`: install each mapping of
the canonical kernel page table (same physical address and permissions) in
the fresh process table.  `none` models the assertion of `vmiter::map`. -/
def copyKernelMappings (kpt : AddrSpace) (st : Kernel) (asp : AddrSpace) :
    Option (Kernel × AddrSpace) :=
  kernelPages.foldl
    (fun acc va =>
      match acc with
      | none => none
      | some (s, pt) =>
        match vm_try_map s pt va (entryPa (kpt.entries va)) (entryPerm (kpt.entries va)) with
        | Except.error _ => none
        | Except.ok r => some r)
    (some (st, asp))

/-- One iteration of the segment-initialization loop of `process_setup`
(kernel.cc lines 186–190): `pit.find(seg.va())`, then
`memset((void*) pit.pa(), 0, seg.size())` and
`memcpy((void*) pit.pa(), seg.data(), seg.data_size())` — both on the
physically contiguous byte range starting at the frame backing `seg.va`.
An unmapped `seg.va` makes the source write through the sentinel address;
`none` models that crash (writes of length 0 touch nothing). -/
def segInitStep (asp : AddrSpace) (m? : Option (Nat → Nat)) (seg : Segment) :
    Option (Nat → Nat) :=
  match m? with
  | none => none
  | some m =>
    match paOf asp seg.va with
    | some p0 => some (memcpyData (memsetRange m p0 seg.size 0) p0 seg.data seg.data_size)
    | none => if seg.size == 0 && seg.data_size == 0 then some m else none

/-- The segment-initialization loop of `process_setup` over all loadable
segments. -/
def initSegData (asp : AddrSpace) (segs : List Segment) (m : Nat → Nat) :
    Option (Nat → Nat) :=
  segs.foldl (segInitStep asp) (some m)

/-- `process_setup(pid, program_name)` of kernel.cc: clear the descriptor's
registers, allocate a root page table, copy the kernel mappings below
`PROC_START_ADDR`, allocate and map every page of every loadable segment,
initialize segment data (zero then copy), set `rip` to the entry point,
allocate and map the stack page at `MEMSIZE_VIRTUAL − PAGESIZE`, set
`rsp = MEMSIZE_VIRTUAL` and mark the process runnable.  `none` models the
boot-time panics on out-of-memory (and the null-pointer crash if the root
allocation fails). -/
def process_setup (st : Kernel) (pid : Nat) (pgm : ProgramImage) : Option Kernel :=
  let st0 :=
    { st with
      ptable := fun i =>
        if i = pid then { st.ptable i with regs := ⟨0, 0, 0, 0⟩ } else st.ptable i }
  match kalloc_pagetable st0 with
  | (none, _) => none
  | (some asp0, st1) =>
    match copyKernelMappings st1.kernel_pt st1 asp0 with
    | none => none
    | some (st2, asp1) =>
      match pgm.segs.foldl
          (fun acc seg =>
            match acc with
            | none => none
            | some (s, pt) => mapSegPages s pt (segPages seg) seg.writable)
          (some (st2, asp1)) with
      | none => none
      | some (st3, asp2) =>
        match initSegData asp2 pgm.segs st3.mem with
        | none => none
        | some m4 =>
          let st4 := { st3 with mem := m4 }
          match kalloc PAGESIZE st4 with
          | (none, _) => none
          | (some spa, st5) =>
            match vm_try_map st5 asp2 (MEMSIZE_VIRTUAL - PAGESIZE) (some spa)
                (PTE_W + PTE_P + PTE_U) with
            | Except.error _ => none
            | Except.ok (st6, asp3) =>
              some
                { st6 with
                  ptable := fun i =>
                    if i = pid then
                      { st6.ptable i with
                        pagetable := some asp3,
                        regs := { (st6.ptable i).regs with
                                  rip := pgm.entry, rsp := MEMSIZE_VIRTUAL },
                        state := PState.RUNNABLE }
                    else st6.ptable i }

/-- Modelled from the spec: the system-call numbers of the ABI table (§4.G);
the constants live in the missing u-lib.hh. -/
def SYSCALL_PANIC : Nat := 1

/-- Modelled from the spec: syscall number of GETPID. -/
def SYSCALL_GETPID : Nat := 2

/-- Modelled from the spec: syscall number of YIELD. -/
def SYSCALL_YIELD : Nat := 3

/-- Modelled from the spec: syscall number of PAGE_ALLOC. -/
def SYSCALL_PAGE_ALLOC : Nat := 4

/-- Modelled from the spec: syscall number of FORK. -/
def SYSCALL_FORK : Nat := 5

/-- Modelled from the spec: syscall number of EXIT. -/
def SYSCALL_EXIT : Nat := 6

/-- Result of the syscall dispatcher: return a value to the calling process,
transfer control to `schedule()`, or halt the whole machine (`panic` /
`user_panic`, which never return). -/
inductive SysResult where
  | ret (v : Int) (st : Kernel)
  | sched (st : Kernel)
  | panicked

/-- The `switch (regs->reg_rax)` of `syscall()` in kernel.cc, dispatching on
the syscall number after the register copy.  The default case is
`panic("Unexpected system call %ld!\n")`, which halts the machine. -/
def syscall_dispatch (st : Kernel) (num : Nat) : SysResult :=
  if num = SYSCALL_PANIC then SysResult.panicked
  else if num = SYSCALL_GETPID then SysResult.ret ((st.ptable st.currentPid).pid : Int) st
  else if num = SYSCALL_YIELD then
    SysResult.sched
      { st with
        ptable := fun i =>
          if i = st.currentPid then
            { st.ptable i with regs := { (st.ptable i).regs with rax := 0 } }
          else st.ptable i }
  else if num = SYSCALL_PAGE_ALLOC then
    let r := syscall_page_alloc st (st.ptable st.currentPid).regs.rdi
    SysResult.ret r.1 r.2
  else if num = SYSCALL_FORK then
    let r := syscall_fork st
    SysResult.ret r.1 r.2
  else if num = SYSCALL_EXIT then
    SysResult.sched (syscall_exit st st.currentPid)
  else SysResult.panicked

/-! ### Refcount bookkeeping for fork/exit

`syscall_exit` decrements exactly one refcount for every user-accessible
non-console leaf mapping with a non-null frame, one for every interior
table, and one for the root.  `exitContrib` counts these decrements per
frame index; the fork-loop invariant states that the refcount table always
equals its pre-fork value plus the child's current contribution. -/

/-- Whether the leaf entry of `f` at `va` makes exit's leaf loop decrement
frame `i` (`kfree` ignores the null frame). -/
def leafHitF (f : Nat → Option (Nat × Nat)) (i va : Nat) : Bool :=
  match f va with
  | some (pa, perm) =>
    permU perm && !(va == CONSOLE_ADDR) && !(pa == 0) && (pa / PAGESIZE == i)
  | none => false

/-- Whether an interior-table record makes exit's table loop decrement
frame `i`. -/
def tabHit (i : Nat) (rt : Nat × Nat) : Bool := !(rt.2 == 0) && (rt.2 / PAGESIZE == i)

/-- Exit's decrement of frame `i` for the root frame. -/
def cntRoot (root i : Nat) : Nat := if root ≠ 0 ∧ root / PAGESIZE = i then 1 else 0

/-- The total number of refcount decrements `syscall_exit` performs on frame
`i` when tearing down address space `asp`. -/
def exitContrib (asp : AddrSpace) (i : Nat) : Nat :=
  vaPages.countP (leafHitF asp.entries i) + asp.tables.countP (tabHit i) + cntRoot asp.root i

lemma setrc_self (f : Nat → Nat) (i v : Nat) : setrc f i v i = v := by
  simp [setrc]

lemma setrc_other (f : Nat → Nat) (i v j : Nat) (h : j ≠ i) : setrc f i v j = f j := by
  simp [setrc, h]

lemma kfree_zero (st : Kernel) : kfree st 0 = st := by
  simp [kfree]

lemma kfree_physpages (st : Kernel) (pa : Nat) (hpa : pa ≠ 0) :
    (kfree st pa).physpages =
      setrc st.physpages (pa / PAGESIZE)
        ((st.physpages (pa / PAGESIZE) + (RCMOD - 1)) % RCMOD) := by
  simp [kfree, hpa]

lemma unsigned_dec (v : Nat) (h1 : 1 ≤ v) (h2 : v < RCMOD) :
    (v + (RCMOD - 1)) % RCMOD = v - 1 := by
  have : v + (RCMOD - 1) = (v - 1) + RCMOD := by
    have : 1 ≤ RCMOD := by norm_num [RCMOD]
    omega
  rw [this, Nat.add_mod_right, Nat.mod_eq_of_lt (by omega)]

lemma kfree_mem (st : Kernel) (pa : Nat) : (kfree st pa).mem = st.mem := by
  unfold kfree; split <;> rfl

lemma kfree_ptable (st : Kernel) (pa : Nat) : (kfree st pa).ptable = st.ptable := by
  unfold kfree; split <;> rfl

lemma countP_ext (p q : Nat → Bool) :
    ∀ l : List Nat, (∀ x ∈ l, p x = q x) → l.countP p = l.countP q := by
  intro l
  induction l with
  | nil => intro _; rfl
  | cons a t ih =>
    intro h
    rw [List.countP_cons, List.countP_cons, ih (fun x hx => h x (List.mem_cons_of_mem a hx)),
      h a (List.mem_cons_self a t)]

lemma countP_update (p q : Nat → Bool) (va : Nat) (hp : p va = false)
    (hpq : ∀ x, x ≠ va → p x = q x) :
    ∀ l : List Nat, l.Nodup → va ∈ l →
      l.countP q = l.countP p + (if q va then 1 else 0) := by
  intro l
  induction l with
  | nil => intro _ hm; exact absurd hm (List.not_mem_nil va)
  | cons a t ih =>
    intro hnd hm
    rw [List.countP_cons, List.countP_cons]
    rcases List.mem_cons.mp hm with rfl | hmt
    · have hnt : va ∉ t := (List.nodup_cons.mp hnd).1
      have : t.countP p = t.countP q :=
        countP_ext p q t (fun x hx => hpq x (fun hxy => hnt (hxy ▸ hx)))
      rw [this, hp]
      simp
    · have hav : a ≠ va := by
        rintro rfl
        exact (List.nodup_cons.mp hnd).1 hmt
      rw [ih (List.nodup_cons.mp hnd).2 hmt, hpq a hav]
      omega

lemma allocatable_bounds (pa : Nat) (h : allocatable_physical_address pa = true) :
    PROC_START_ADDR ≤ pa ∧ pa < MEMSIZE_PHYSICAL := by
  simpa [allocatable_physical_address] using h

lemma firstFreeFrom_some_facts (st : Kernel) (fuel : Nat) :
    ∀ start pa : Nat, firstFreeFrom st start fuel = some pa →
      allocatable_physical_address pa = true ∧ st.physpages (pa / PAGESIZE) = 0 := by
  induction fuel with
  | zero => intro start pa h; simp [firstFreeFrom] at h
  | succ n ih =>
    intro start pa h
    unfold firstFreeFrom at h
    by_cases hc :
        (allocatable_physical_address start && (st.physpages (start / PAGESIZE) == 0)) = true
    · rw [if_pos hc] at h
      injection h with h1
      subst h1
      simp only [Bool.and_eq_true, beq_iff_eq] at hc
      exact ⟨hc.1, hc.2⟩
    · rw [if_neg hc] at h
      exact ih _ _ h

lemma firstFreeFrom_minimal (st : Kernel) (fuel : Nat) :
    ∀ start pa : Nat, firstFreeFrom st start fuel = some pa →
      start ≤ pa ∧ (pa - start) % PAGESIZE = 0 ∧
      ∀ q, start ≤ q → q < pa → (q - start) % PAGESIZE = 0 →
        ¬(allocatable_physical_address q = true ∧ st.physpages (q / PAGESIZE) = 0) := by
  induction fuel with
  | zero => intro start pa h; simp [firstFreeFrom] at h
  | succ n ih =>
    intro start pa h
    unfold firstFreeFrom at h
    by_cases hc :
        (allocatable_physical_address start && (st.physpages (start / PAGESIZE) == 0)) = true
    · rw [if_pos hc] at h
      injection h with h1
      subst h1
      exact ⟨le_refl _, by simp, fun q hq1 hq2 _ => absurd hq2 (by omega)⟩
    · rw [if_neg hc] at h
      obtain ⟨h1, h2, h3⟩ := ih _ _ h
      have hps : (0 : Nat) < PAGESIZE := by norm_num [PAGESIZE]
      refine ⟨by omega, ?_, ?_⟩
      · have : pa - start = (pa - (start + PAGESIZE)) + PAGESIZE := by omega
        rw [this, Nat.add_mod_right]
        exact h2
      · intro q hq1 hq2 hq3 hq4
        by_cases hqs : q < start + PAGESIZE
        · have : q = start := by
            rcases Nat.eq_zero_or_pos (q - start) with h0 | hpos
            · omega
            · exfalso
              have := Nat.le_of_dvd hpos (Nat.dvd_of_mod_eq_zero hq3)
              omega
          subst this
          rw [hq4.1, hq4.2] at hc
          simp at hc
        · refine h3 q (by omega) hq2 ?_ hq4
          have : q - (start + PAGESIZE) + PAGESIZE = q - start := by omega
          have h5 : (q - (start + PAGESIZE) + PAGESIZE) % PAGESIZE = 0 := by rw [this]; exact hq3
          rwa [Nat.add_mod_right] at h5

lemma kalloc_none_eq (sz : Nat) (st st' : Kernel) (h : kalloc sz st = (none, st')) :
    st' = st := by
  unfold kalloc at h
  by_cases hsz : PAGESIZE < sz
  · rw [if_pos hsz] at h
    injection h with _ h2
    exact h2.symm
  · rw [if_neg hsz] at h
    rcases hf : firstFreeFrom st 0 NPAGES with _ | pa
    · rw [hf] at h
      injection h with _ h2
      exact h2.symm
    · rw [hf] at h
      injection h with h1 _
      exact absurd h1 (by simp)

lemma kalloc_page_some (st : Kernel) (pa : Nat) (st' : Kernel)
    (h : kalloc PAGESIZE st = (some pa, st')) :
    allocatable_physical_address pa = true ∧
    st.physpages (pa / PAGESIZE) = 0 ∧
    st'.physpages = setrc st.physpages (pa / PAGESIZE) 1 ∧
    st'.ptable = st.ptable ∧ st'.currentPid = st.currentPid ∧
    st'.kernel_pt = st.kernel_pt ∧
    st'.mem = memsetRange st.mem pa PAGESIZE 0xCC := by
  unfold kalloc at h
  rw [if_neg (lt_irrefl PAGESIZE)] at h
  rcases hf : firstFreeFrom st 0 NPAGES with _ | pa0
  · rw [hf] at h
    injection h with h1 _
    exact absurd h1 (by simp)
  · rw [hf] at h
    injection h with h1 h2
    injection h1 with h1
    subst h1
    obtain ⟨ha, hr⟩ := firstFreeFrom_some_facts st NPAGES 0 pa0 hf
    have hphys : st'.physpages = setrc st.physpages (pa0 / PAGESIZE) 1 := by
      rw [← h2]
      show setrc st.physpages (pa0 / PAGESIZE) ((st.physpages (pa0 / PAGESIZE) + 1) % RCMOD)
          = setrc st.physpages (pa0 / PAGESIZE) 1
      rw [hr]
      norm_num [RCMOD]
    exact ⟨ha, hr, hphys, by rw [← h2], by rw [← h2], by rw [← h2], by rw [← h2]⟩

lemma kalloc_some_ne_zero (st : Kernel) (pa : Nat) (st' : Kernel)
    (h : kalloc PAGESIZE st = (some pa, st')) : pa ≠ 0 := by
  obtain ⟨ha, _⟩ := kalloc_page_some st pa st' h
  have := allocatable_bounds pa ha
  have : PROC_START_ADDR = 0x100000 := rfl
  omega

lemma vm_try_map_error_eq (st : Kernel) (asp : AddrSpace) (va : Nat) (pa? : Option Nat)
    (perm : Nat) (stf : Kernel) (h : vm_try_map st asp va pa? perm = Except.error stf) :
    stf = st := by
  unfold vm_try_map at h
  by_cases hp : perm = 0
  · rw [if_pos hp] at h
    exact absurd h (by simp)
  · rw [if_neg hp] at h
    by_cases ht : (asp.tables.find? (fun rt => rt.1 == va / REGION)).isSome = true
    · rw [if_pos ht] at h
      exact absurd h (by simp)
    · rw [if_neg ht] at h
      rcases hk : kalloc PAGESIZE st with ⟨o, st1⟩
      rcases o with _ | tpa
      · rw [hk] at h
        injection h with h1
        rw [← h1]
        exact kalloc_none_eq PAGESIZE st st1 hk
      · rw [hk] at h
        exact absurd h (by simp)

lemma vaPages_nodup : vaPages.Nodup := by
  have hinj : Function.Injective (fun k : Nat => k * PAGESIZE) := by
    intro a b hab
    have hps : (0 : Nat) < PAGESIZE := by norm_num [PAGESIZE]
    exact Nat.eq_of_mul_eq_mul_right hps hab
  exact List.Nodup.map hinj (List.nodup_range _)

lemma vm_try_map_contrib (st st' : Kernel) (child child' : AddrSpace) (va : Nat)
    (pa? : Option Nat) (perm : Nat)
    (h : vm_try_map st child va pa? perm = Except.ok (st', child'))
    (hva : va ∈ vaPages) (hnew : child.entries va = none) :
    (∀ i, st'.physpages i + (if leafHitF child'.entries i va then 1 else 0) + exitContrib child i
        = st.physpages i + exitContrib child' i) ∧
    child'.tables.length ≤ child.tables.length + 1 ∧
    child'.root = child.root ∧
    (∀ v, v ≠ va → child'.entries v = child.entries v) ∧
    st'.ptable = st.ptable ∧ st'.currentPid = st.currentPid ∧
    (perm ≠ 0 → child'.entries va = some (pa?.getD 0, perm)) ∧
    (perm = 0 → child' = child ∧ st' = st) := by
  unfold vm_try_map at h
  by_cases hp : perm = 0
  · rw [if_pos hp] at h
    have h1 : ((st, child) : Kernel × AddrSpace) = (st', child') := by injection h
    rw [Prod.mk.injEq] at h1
    obtain ⟨h1a, h1b⟩ := h1
    subst h1a
    subst h1b
    refine ⟨?_, by omega, rfl, fun _ _ => rfl, rfl, rfl, fun hc => absurd hp hc,
      fun _ => ⟨rfl, rfl⟩⟩
    intro i
    have : leafHitF child.entries i va = false := by simp [leafHitF, hnew]
    rw [this]
    simp
  · rw [if_neg hp] at h
    have hupd : ∀ i, vaPages.countP (leafHitF (entriesUpdate child.entries va
          (some (pa?.getD 0, perm))) i)
        = vaPages.countP (leafHitF child.entries i)
          + (if leafHitF (entriesUpdate child.entries va (some (pa?.getD 0, perm))) i va
             then 1 else 0) := by
      intro i
      refine countP_update _ _ va ?_ ?_ vaPages vaPages_nodup hva
      · simp [leafHitF, hnew]
      · intro x hx
        simp [leafHitF, entriesUpdate, hx]
    have hva' : entriesUpdate child.entries va (some (pa?.getD 0, perm)) va
        = some (pa?.getD 0, perm) := by
      simp [entriesUpdate]
    by_cases ht : (child.tables.find? (fun rt => rt.1 == va / REGION)).isSome = true
    · rw [if_pos ht] at h
      have h1 : (st,
          ({ child with entries := (entriesUpdate child.entries va
              (some (pa?.getD 0, perm))) } : AddrSpace)) = (st', child') := by injection h
      rw [Prod.mk.injEq] at h1
      obtain ⟨h1a, h1b⟩ := h1
      subst h1a
      subst h1b
      refine ⟨?_, by simp, rfl, ?_, rfl, rfl, fun _ => hva', fun h0 => absurd h0 hp⟩
      · intro i
        have hc := hupd i
        unfold exitContrib
        simp only
        omega
      · intro v hv
        simp [entriesUpdate, hv]
    · rw [if_neg ht] at h
      rcases hk : kalloc PAGESIZE st with ⟨o, st1⟩
      rcases o with _ | tpa
      · rw [hk] at h
        exact absurd h (by simp)
      · rw [hk] at h
        have h1 : (st1,
            ({ child with
                tables := (va / REGION, tpa) :: child.tables,
                entries := (entriesUpdate child.entries va
                  (some (pa?.getD 0, perm))) } : AddrSpace)) = (st', child') := by
          injection h
        rw [Prod.mk.injEq] at h1
        obtain ⟨h1a, h1b⟩ := h1
        subst h1a
        subst h1b
        obtain ⟨_, hr0, hphys, hpt, hcur, _⟩ := kalloc_page_some st tpa st1 hk
        have htpa : tpa ≠ 0 := kalloc_some_ne_zero st tpa st1 hk
        refine ⟨?_, by simp, rfl, ?_, hpt, hcur, fun _ => hva', fun h0 => absurd h0 hp⟩
        · intro i
          have hc := hupd i
          have htc : ((va / REGION, tpa) :: child.tables).countP (tabHit i)
              = child.tables.countP (tabHit i) + (if tpa / PAGESIZE = i then 1 else 0) := by
            rw [List.countP_cons]
            have he : tabHit i (va / REGION, tpa) = (tpa / PAGESIZE == i) := by
              simp [tabHit, htpa]
            rw [he]
            by_cases hti : tpa / PAGESIZE = i <;> simp [hti]
          unfold exitContrib
          simp only
          rw [hphys, htc]
          by_cases hij : i = tpa / PAGESIZE
          · subst hij
            rw [setrc_self]
            rw [if_pos rfl]
            omega
          · rw [setrc_other _ _ _ _ hij]
            simp only [if_neg (show ¬tpa / PAGESIZE = i from fun hx => hij hx.symm)]
            omega
        · intro v hv
          simp [entriesUpdate, hv]

lemma exitLeaf_fold (pt : AddrSpace) :
    ∀ (l : List Nat) (st : Kernel) (b : Nat → Nat),
      (∀ i, st.physpages i = b i + l.countP (leafHitF pt.entries i)) →
      (∀ i, st.physpages i < RCMOD) →
      (∀ i, (l.foldl (exitLeafStep pt) st).physpages i = b i) ∧
      (l.foldl (exitLeafStep pt) st).ptable = st.ptable := by
  intro l
  induction l with
  | nil =>
    intro st b hinv _
    refine ⟨fun i => ?_, rfl⟩
    simpa using hinv i
  | cons va t ih =>
    intro st b hinv hbnd
    rw [List.foldl_cons]
    rcases he : pt.entries va with _ | ⟨pa, perm⟩
    · have hstep : exitLeafStep pt st va = st := by simp [exitLeafStep, he]
      rw [hstep]
      refine ih st b (fun i => ?_) hbnd
      have hx := hinv i
      rw [List.countP_cons] at hx
      have hhit : leafHitF pt.entries i va = false := by simp [leafHitF, he]
      rw [hhit] at hx
      simpa using hx
    · by_cases hu : (permU perm && !(va == CONSOLE_ADDR)) = true
      · have hstep : exitLeafStep pt st va = kfree st pa := by
          simp [exitLeafStep, he, hu]
        rw [hstep]
        by_cases hpa : pa = 0
        · subst hpa
          rw [kfree_zero]
          refine ih st b (fun i => ?_) hbnd
          have hx := hinv i
          rw [List.countP_cons] at hx
          have hhit : leafHitF pt.entries i va = false := by
            simp [leafHitF, he]
          rw [hhit] at hx
          simpa using hx
        · rw [Bool.and_eq_true] at hu
          have hhit : ∀ i, leafHitF pt.entries i va = (pa / PAGESIZE == i) := by
            intro i
            simp [leafHitF, he, hu.1, hu.2, hpa]
          have hdec := kfree_physpages st pa hpa
          have hj := hinv (pa / PAGESIZE)
          rw [List.countP_cons, hhit (pa / PAGESIZE)] at hj
          simp only [beq_self_eq_true, if_pos] at hj
          have hpos : 1 ≤ st.physpages (pa / PAGESIZE) := by omega
          have hval : (kfree st pa).physpages (pa / PAGESIZE)
              = st.physpages (pa / PAGESIZE) - 1 := by
            rw [hdec, setrc_self, unsigned_dec _ hpos (hbnd _)]
          have hinv' : ∀ i, (kfree st pa).physpages i
              = b i + t.countP (leafHitF pt.entries i) := by
            intro i
            by_cases hij : i = pa / PAGESIZE
            · subst hij
              rw [hval]
              omega
            · rw [hdec, setrc_other _ _ _ _ hij]
              have hx := hinv i
              rw [List.countP_cons, hhit i] at hx
              have hne : (pa / PAGESIZE == i) = false := by
                simp
                exact fun hx2 => hij hx2.symm
              rw [hne] at hx
              simpa using hx
          have hbnd' : ∀ i, (kfree st pa).physpages i < RCMOD := by
            intro i
            by_cases hij : i = pa / PAGESIZE
            · subst hij
              rw [hval]
              have := hbnd (pa / PAGESIZE)
              omega
            · rw [hdec, setrc_other _ _ _ _ hij]
              exact hbnd i
          obtain ⟨ih1, ih2⟩ := ih (kfree st pa) b hinv' hbnd'
          exact ⟨ih1, by rw [ih2, kfree_ptable]⟩
      · have hstep : exitLeafStep pt st va = st := by
          simp only [exitLeafStep, he]
          rw [if_neg hu]
        rw [hstep]
        refine ih st b (fun i => ?_) hbnd
        have hx := hinv i
        rw [List.countP_cons] at hx
        have hhit : leafHitF pt.entries i va = false := by
          simp only [leafHitF, he]
          rcases Bool.not_eq_true _ ▸ hu with h
          cases hU : permU perm
          · rfl
          · cases hC : (!(va == CONSOLE_ADDR))
            · rfl
            · exact absurd (by rw [hU, hC]; rfl) hu
        rw [hhit] at hx
        simpa using hx

lemma exitTab_fold :
    ∀ (ts : List (Nat × Nat)) (st : Kernel) (b : Nat → Nat),
      (∀ i, st.physpages i = b i + ts.countP (tabHit i)) →
      (∀ i, st.physpages i < RCMOD) →
      (∀ i, (ts.foldl (fun s rt => kfree s rt.2) st).physpages i = b i) ∧
      (ts.foldl (fun s rt => kfree s rt.2) st).ptable = st.ptable := by
  intro ts
  induction ts with
  | nil =>
    intro st b hinv _
    refine ⟨fun i => ?_, rfl⟩
    simpa using hinv i
  | cons rt t ih =>
    intro st b hinv hbnd
    rw [List.foldl_cons]
    by_cases hpa : rt.2 = 0
    · rw [hpa, kfree_zero]
      refine ih st b (fun i => ?_) hbnd
      have hx := hinv i
      rw [List.countP_cons] at hx
      have hhit : tabHit i rt = false := by simp [tabHit, hpa]
      rw [hhit] at hx
      simpa using hx
    · have hhit : ∀ i, tabHit i rt = (rt.2 / PAGESIZE == i) := by
        intro i
        simp [tabHit, hpa]
      have hdec := kfree_physpages st rt.2 hpa
      have hj := hinv (rt.2 / PAGESIZE)
      rw [List.countP_cons, hhit (rt.2 / PAGESIZE)] at hj
      simp only [beq_self_eq_true, if_pos] at hj
      have hpos : 1 ≤ st.physpages (rt.2 / PAGESIZE) := by omega
      have hval : (kfree st rt.2).physpages (rt.2 / PAGESIZE)
          = st.physpages (rt.2 / PAGESIZE) - 1 := by
        rw [hdec, setrc_self, unsigned_dec _ hpos (hbnd _)]
      have hinv' : ∀ i, (kfree st rt.2).physpages i = b i + t.countP (tabHit i) := by
        intro i
        by_cases hij : i = rt.2 / PAGESIZE
        · subst hij
          rw [hval]
          omega
        · rw [hdec, setrc_other _ _ _ _ hij]
          have hx := hinv i
          rw [List.countP_cons, hhit i] at hx
          have hne : (rt.2 / PAGESIZE == i) = false := by
            simp
            exact fun hx2 => hij hx2.symm
          rw [hne] at hx
          simpa using hx
      have hbnd' : ∀ i, (kfree st rt.2).physpages i < RCMOD := by
        intro i
        by_cases hij : i = rt.2 / PAGESIZE
        · subst hij
          rw [hval]
          have := hbnd (rt.2 / PAGESIZE)
          omega
        · rw [hdec, setrc_other _ _ _ _ hij]
          exact hbnd i
      obtain ⟨ih1, ih2⟩ := ih (kfree st rt.2) b hinv' hbnd'
      exact ⟨ih1, by rw [ih2, kfree_ptable]⟩

lemma syscall_exit_eq_core (st : Kernel) (pid : Nat) (pt : AddrSpace)
    (hpt : (st.ptable pid).pagetable = some pt) :
    syscall_exit st pid = syscall_exit_core st pid pt := by
  unfold syscall_exit
  rw [hpt]

lemma markFree_physpages (st : Kernel) (pid : Nat) :
    (markFree st pid).physpages = st.physpages := rfl

/-- Teardown restores the refcount table exactly: if the current refcounts
are a base table plus the decrements `syscall_exit` is about to perform,
exit brings every frame back to the base table. -/
lemma syscall_exit_core_physpages (st : Kernel) (pid : Nat) (pt : AddrSpace)
    (b : Nat → Nat)
    (hinv : ∀ i, st.physpages i = b i + exitContrib pt i)
    (hbnd : ∀ i, st.physpages i < RCMOD) :
    ∀ i, (syscall_exit_core st pid pt).physpages i = b i := by
  have h1 := exitLeaf_fold pt vaPages st
    (fun j => b j + pt.tables.countP (tabHit j) + cntRoot pt.root j)
    (fun j => by
      show st.physpages j
          = b j + pt.tables.countP (tabHit j) + cntRoot pt.root j
            + vaPages.countP (leafHitF pt.entries j)
      have hx := hinv j
      unfold exitContrib at hx
      omega) hbnd
  have h1' : ∀ j, (vaPages.foldl (exitLeafStep pt) st).physpages j
      = b j + pt.tables.countP (tabHit j) + cntRoot pt.root j := fun j => h1.1 j
  have hbnd1 : ∀ j, (vaPages.foldl (exitLeafStep pt) st).physpages j < RCMOD := by
    intro j
    have ha := h1' j
    have hc := hinv j
    have hd := hbnd j
    unfold exitContrib at hc
    omega
  have h2 := exitTab_fold pt.tables (vaPages.foldl (exitLeafStep pt) st)
    (fun j => b j + cntRoot pt.root j)
    (fun j => by
      show (vaPages.foldl (exitLeafStep pt) st).physpages j
          = b j + cntRoot pt.root j + pt.tables.countP (tabHit j)
      have hx := h1' j
      omega) hbnd1
  have h2' : ∀ j, (pt.tables.foldl (fun s rt => kfree s rt.2)
      (vaPages.foldl (exitLeafStep pt) st)).physpages j
      = b j + cntRoot pt.root j := fun j => h2.1 j
  have hbnd2 : ∀ j, (pt.tables.foldl (fun s rt => kfree s rt.2)
      (vaPages.foldl (exitLeafStep pt) st)).physpages j < RCMOD := by
    intro j
    have ha := h2' j
    have hc := h1' j
    have hd := hbnd1 j
    omega
  intro i
  unfold syscall_exit_core
  rw [markFree_physpages]
  by_cases hroot : pt.root = 0
  · rw [hroot, kfree_zero]
    have hv := h2' i
    have hcr : cntRoot pt.root i = 0 := by
      unfold cntRoot
      rw [if_neg (fun hx => hx.1 hroot)]
    omega
  · have hdec := kfree_physpages
      (pt.tables.foldl (fun s rt => kfree s rt.2) (vaPages.foldl (exitLeafStep pt) st))
      pt.root hroot
    by_cases hij : i = pt.root / PAGESIZE
    · subst hij
      have hv := h2' (pt.root / PAGESIZE)
      have hcr : cntRoot pt.root (pt.root / PAGESIZE) = 1 := by
        unfold cntRoot
        rw [if_pos ⟨hroot, rfl⟩]
      rw [hdec, setrc_self, unsigned_dec _ (by omega) (hbnd2 _)]
      omega
    · rw [hdec, setrc_other _ _ _ _ hij]
      have hv := h2' i
      have hcr : cntRoot pt.root i = 0 := by
        unfold cntRoot
        rw [if_neg (fun hx => hij hx.2.symm)]
      omega

/-- Side conditions on one parent leaf entry under which fork's refcount
bookkeeping is exact: a user-accessible mapping below `PROC_START_ADDR`
must be the console cell (the canonical kernel mapping, invariant PT1), and
a user-accessible mapping never names the null frame. -/
def goodVA (parent : AddrSpace) (va : Nat) : Bool :=
  match parent.entries va with
  | none => true
  | some (pa, perm) =>
    !(permU perm)
      || ((!(decide (va < PROC_START_ADDR)) || (va == CONSOLE_ADDR)) && !(pa == 0))

lemma vaPages_length : vaPages.length = 768 := by
  unfold vaPages
  rw [List.length_map, List.length_range]
  norm_num [MEMSIZE_VIRTUAL, PAGESIZE]

lemma exitContrib_le (asp : AddrSpace) (i : Nat) :
    exitContrib asp i ≤ vaPages.length + asp.tables.length + 1 := by
  unfold exitContrib cntRoot
  have h1 := List.countP_le_length (leafHitF asp.entries i) (l := vaPages)
  have h2 := List.countP_le_length (tabHit i) (l := asp.tables)
  split <;> omega

lemma permW_ne_zero (perm : Nat) (h : permW perm = true) : perm ≠ 0 := by
  intro h0
  rw [h0] at h
  simp [permW] at h

lemma permU_ne_zero (perm : Nat) (h : permU perm = true) : perm ≠ 0 := by
  intro h0
  rw [h0] at h
  simp [permU] at h

lemma user_va_ne_console (va : Nat) (h : ¬va < PROC_START_ADDR) :
    (va == CONSOLE_ADDR) = false := by
  have : CONSOLE_ADDR < PROC_START_ADDR := by norm_num [CONSOLE_ADDR, PROC_START_ADDR]
  simp only [beq_eq_false_iff_ne, ne_eq]
  omega

lemma goodVA_kernel_console (parent : AddrSpace) (va ppa pperm : Nat)
    (hpe : parent.entries va = some (ppa, pperm)) (hgood : goodVA parent va = true)
    (hk : va < PROC_START_ADDR) (hU : permU pperm = true) :
    (va == CONSOLE_ADDR) = true ∧ ppa ≠ 0 := by
  unfold goodVA at hgood
  rw [hpe] at hgood
  simp [hU, hk] at hgood
  exact ⟨by simp [hgood.1], hgood.2⟩

lemma goodVA_user_pa (parent : AddrSpace) (va ppa pperm : Nat)
    (hpe : parent.entries va = some (ppa, pperm)) (hgood : goodVA parent va = true)
    (hU : permU pperm = true) : ppa ≠ 0 := by
  unfold goodVA at hgood
  rw [hpe] at hgood
  simp [hU] at hgood
  exact hgood.2

lemma setPagetable_physpages (st : Kernel) (pid : Nat) (pt : Option AddrSpace) :
    (setPagetable st pid pt).physpages = st.physpages := rfl

lemma incRef_physpages (st : Kernel) (pa : Nat) :
    (incRef st pa).physpages
      = setrc st.physpages (pa / PAGESIZE) ((st.physpages (pa / PAGESIZE) + 1) % RCMOD) :=
  rfl

/-- Behaviour of one fork-loop iteration: on failure the child is unchanged
and — except when the mapping of a freshly copied writable page fails — so
is the refcount table; on success the loop invariant (refcounts = pre-fork
table plus the child's teardown contribution) is preserved. -/
lemma forkStep_spec (parent : AddrSpace) (va : Nat) (st : Kernel) (child : AddrSpace)
    (pre : Kernel)
    (hva : va ∈ vaPages)
    (hnew : child.entries va = none)
    (hgood : goodVA parent va = true)
    (hinv : ∀ i, st.physpages i = pre.physpages i + exitContrib child i)
    (hcap : ∀ i, pre.physpages i + 65536 < RCMOD)
    (htab : child.tables.length ≤ 2 * vaPages.length) :
    (∀ k stf childf,
        forkStep parent va (st, child) = Except.error (k, stf, childf) →
        childf = child ∧ (k ≠ ForkFailKind.mapCopy → stf = st)) ∧
    (∀ st' child',
        forkStep parent va (st, child) = Except.ok (st', child') →
        (∀ i, st'.physpages i = pre.physpages i + exitContrib child' i) ∧
        child'.tables.length ≤ child.tables.length + 1 ∧
        (∀ v, v ≠ va → child'.entries v = child.entries v)) := by
  rcases hpe : parent.entries va with _ | ⟨ppa, pperm⟩
  · -- absent parent entry: the iteration is a complete no-op
    have hstep : forkStep parent va (st, child) = Except.ok (st, child) := by
      simp only [forkStep]
      simp [vm_try_map, hpe, entryPa, entryPerm, permW, permU, Nat.zero_testBit]
    refine ⟨?_, ?_⟩
    · intro k stf childf he
      rw [hstep] at he
      exact absurd he (by simp)
    · intro st' child' he
      rw [hstep] at he
      have h1 : ((st, child) : Kernel × AddrSpace) = (st', child') := by injection he
      rw [Prod.mk.injEq] at h1
      obtain ⟨h1a, h1b⟩ := h1
      subst h1a
      subst h1b
      exact ⟨hinv, by omega, fun _ _ => rfl⟩
  · by_cases hk : va < PROC_START_ADDR
    · -- kernel-range entry
      rcases hm : vm_try_map st child va (some ppa) pperm with stf0 | ⟨st1, child1⟩
      · have hstep : forkStep parent va (st, child)
            = Except.error (ForkFailKind.mapKernel, stf0, child) := by
          simp only [forkStep]
          rw [if_pos hk]
          simp [hpe, entryPa, entryPerm, hm]
        refine ⟨?_, ?_⟩
        · intro k stf childf he
          rw [hstep] at he
          have h1 : ((ForkFailKind.mapKernel, stf0, child)
              : ForkFailKind × Kernel × AddrSpace) = (k, stf, childf) := by injection he
          rw [Prod.mk.injEq, Prod.mk.injEq] at h1
          obtain ⟨_, h1b, h1c⟩ := h1
          exact ⟨h1c.symm, fun _ => h1b ▸ (vm_try_map_error_eq _ _ _ _ _ _ hm)⟩
        · intro st' child' he
          rw [hstep] at he
          exact absurd he (by simp)
      · have hstep : forkStep parent va (st, child) = Except.ok (st1, child1) := by
          simp only [forkStep]
          rw [if_pos hk]
          simp [hpe, entryPa, entryPerm, hm]
        obtain ⟨hc1, hc2, _, hc4, _, _, hc7, hc8⟩ :=
          vm_try_map_contrib st st1 child child1 va (some ppa) pperm hm hva hnew
        have hhit : ∀ i, leafHitF child1.entries i va = false := by
          intro i
          by_cases hp0 : pperm = 0
          · obtain ⟨hceq, _⟩ := hc8 hp0
            rw [hceq]
            simp [leafHitF, hnew]
          · have hev := hc7 hp0
            simp only [Option.getD_some] at hev
            unfold leafHitF
            rw [hev]
            by_cases hU : permU pperm = true
            · obtain ⟨hcon, _⟩ := goodVA_kernel_console parent va ppa pperm hpe hgood hk hU
              simp [hcon]
            · have hU' : permU pperm = false := by
                revert hU
                cases permU pperm <;> simp
              simp [hU']
        refine ⟨?_, ?_⟩
        · intro k stf childf he
          rw [hstep] at he
          exact absurd he (by simp)
        · intro st' child' he
          rw [hstep] at he
          have h1 : ((st1, child1) : Kernel × AddrSpace) = (st', child') := by injection he
          rw [Prod.mk.injEq] at h1
          obtain ⟨h1a, h1b⟩ := h1
          subst h1a
          subst h1b
          refine ⟨fun i => ?_, hc2, hc4⟩
          have ha := hc1 i
          rw [hhit i] at ha
          simp at ha
          have hb := hinv i
          omega
    · -- user-range entry
      have hnc : (va == CONSOLE_ADDR) = false := user_va_ne_console va hk
      by_cases hU : permU pperm = true
      · by_cases hW : permW pperm = true
        · -- writable user page: allocate and copy
          rcases hka : kalloc PAGESIZE st with ⟨o, st1⟩
          rcases o with _ | pa
          · have hstep : forkStep parent va (st, child)
                = Except.error (ForkFailKind.allocCopy, st1, child) := by
              simp only [forkStep]
              rw [if_neg hk]
              simp [hpe, entryPa, entryPerm, hW, hU, hka]
            refine ⟨?_, ?_⟩
            · intro k stf childf he
              rw [hstep] at he
              have h1 : ((ForkFailKind.allocCopy, st1, child)
                  : ForkFailKind × Kernel × AddrSpace) = (k, stf, childf) := by injection he
              rw [Prod.mk.injEq, Prod.mk.injEq] at h1
              obtain ⟨_, h1b, h1c⟩ := h1
              exact ⟨h1c.symm, fun _ => h1b ▸ (kalloc_none_eq _ _ _ hka)⟩
            · intro st' child' he
              rw [hstep] at he
              exact absurd he (by simp)
          · rcases hm : vm_try_map
                { st1 with mem := (memcpyPhys st1.mem pa ppa PAGESIZE) }
                child va (some pa) pperm with stf0 | ⟨st3, child3⟩
            · have hstep : forkStep parent va (st, child)
                  = Except.error (ForkFailKind.mapCopy, stf0, child) := by
                simp only [forkStep]
                rw [if_neg hk]
                simp [hpe, entryPa, entryPerm, hW, hU, hka, hm]
              refine ⟨?_, ?_⟩
              · intro k stf childf he
                rw [hstep] at he
                have h1 : ((ForkFailKind.mapCopy, stf0, child)
                    : ForkFailKind × Kernel × AddrSpace) = (k, stf, childf) := by
                  injection he
                rw [Prod.mk.injEq, Prod.mk.injEq] at h1
                obtain ⟨h1a, _, h1c⟩ := h1
                refine ⟨h1c.symm, fun hkk => absurd h1a.symm hkk⟩
              · intro st' child' he
                rw [hstep] at he
                exact absurd he (by simp)
            · have hstep : forkStep parent va (st, child) = Except.ok (st3, child3) := by
                simp only [forkStep]
                rw [if_neg hk]
                simp [hpe, entryPa, entryPerm, hW, hU, hka, hm]
              obtain ⟨hal, hz, hphys, _, _, _⟩ := kalloc_page_some st pa st1 hka
              have hpa0 : pa ≠ 0 := kalloc_some_ne_zero st pa st1 hka
              obtain ⟨hc1, hc2, _, hc4, _, _, hc7, _⟩ :=
                vm_try_map_contrib { st1 with mem := (memcpyPhys st1.mem pa ppa PAGESIZE) }
                  st3 child child3 va (some pa) pperm hm hva hnew
              have hp0 : pperm ≠ 0 := permW_ne_zero pperm hW
              have hev := hc7 hp0
              simp only [Option.getD_some] at hev
              have hhit : ∀ i, leafHitF child3.entries i va = (pa / PAGESIZE == i) := by
                intro i
                unfold leafHitF
                rw [hev]
                simp [hU, hnc, hpa0]
              refine ⟨?_, ?_⟩
              · intro k stf childf he
                rw [hstep] at he
                exact absurd he (by simp)
              · intro st' child' he
                rw [hstep] at he
                have h1 : ((st3, child3) : Kernel × AddrSpace) = (st', child') := by
                  injection he
                rw [Prod.mk.injEq] at h1
                obtain ⟨h1a, h1b⟩ := h1
                subst h1a
                subst h1b
                refine ⟨fun i => ?_, hc2, hc4⟩
                have ha := hc1 i
                rw [hhit i] at ha
                have hb := hinv i
                have hmem : ({ st1 with
                    mem := (memcpyPhys st1.mem pa ppa PAGESIZE) } : Kernel).physpages
                    = st1.physpages := rfl
                rw [hmem, hphys] at ha
                by_cases hij : i = pa / PAGESIZE
                · subst hij
                  rw [setrc_self] at ha
                  have hb2 := hinv (pa / PAGESIZE)
                  simp at ha
                  omega
                · rw [setrc_other _ _ _ _ hij] at ha
                  have hne : (pa / PAGESIZE == i) = false := by
                    simp
                    exact fun hx => hij hx.symm
                  rw [hne] at ha
                  simp at ha
                  omega
        · -- read-only user page: share and increment the refcount
          have hW' : permW pperm = false := by
            revert hW
            cases permW pperm <;> simp
          rcases hm : vm_try_map st child va (some ppa) pperm with stf0 | ⟨st1, child1⟩
          · have hstep : forkStep parent va (st, child)
                = Except.error (ForkFailKind.mapShare, stf0, child) := by
              simp only [forkStep]
              rw [if_neg hk]
              simp [hpe, entryPa, entryPerm, hW', hU, hm]
            refine ⟨?_, ?_⟩
            · intro k stf childf he
              rw [hstep] at he
              have h1 : ((ForkFailKind.mapShare, stf0, child)
                  : ForkFailKind × Kernel × AddrSpace) = (k, stf, childf) := by injection he
              rw [Prod.mk.injEq, Prod.mk.injEq] at h1
              obtain ⟨_, h1b, h1c⟩ := h1
              exact ⟨h1c.symm, fun _ => h1b ▸ (vm_try_map_error_eq _ _ _ _ _ _ hm)⟩
            · intro st' child' he
              rw [hstep] at he
              exact absurd he (by simp)
          · have hstep : forkStep parent va (st, child)
                = Except.ok (incRef st1 ppa, child1) := by
              simp only [forkStep]
              rw [if_neg hk]
              simp [hpe, entryPa, entryPerm, hW', hU, hm]
            obtain ⟨hc1, hc2, _, hc4, _, _, hc7, _⟩ :=
              vm_try_map_contrib st st1 child child1 va (some ppa) pperm hm hva hnew
            have hp0 : pperm ≠ 0 := permU_ne_zero pperm hU
            have hev := hc7 hp0
            simp only [Option.getD_some] at hev
            have hppa0 : ppa ≠ 0 := goodVA_user_pa parent va ppa pperm hpe hgood hU
            have hhit : ∀ i, leafHitF child1.entries i va = (ppa / PAGESIZE == i) := by
              intro i
              unfold leafHitF
              rw [hev]
              simp [hU, hnc, hppa0]
            have hcontribA := exitContrib_le child (ppa / PAGESIZE)
            have hcontribB := exitContrib_le child1 (ppa / PAGESIZE)
            have hlen := vaPages_length
            have hbound : st1.physpages (ppa / PAGESIZE) + 1 < RCMOD := by
              have ha := hc1 (ppa / PAGESIZE)
              rw [hhit (ppa / PAGESIZE)] at ha
              simp at ha
              have hb := hinv (ppa / PAGESIZE)
              have hd := hcap (ppa / PAGESIZE)
              omega
            refine ⟨?_, ?_⟩
            · intro k stf childf he
              rw [hstep] at he
              exact absurd he (by simp)
            · intro st' child' he
              rw [hstep] at he
              have h1 : ((incRef st1 ppa, child1) : Kernel × AddrSpace) = (st', child') := by
                injection he
              rw [Prod.mk.injEq] at h1
              obtain ⟨h1a, h1b⟩ := h1
              subst h1a
              subst h1b
              refine ⟨fun i => ?_, hc2, hc4⟩
              have ha := hc1 i
              rw [hhit i] at ha
              have hb := hinv i
              rw [incRef_physpages]
              by_cases hij : i = ppa / PAGESIZE
              · subst hij
                rw [setrc_self, Nat.mod_eq_of_lt hbound]
                simp at ha
                have hb2 := hinv (ppa / PAGESIZE)
                omega
              · rw [setrc_other _ _ _ _ hij]
                have hne : (ppa / PAGESIZE == i) = false := by
                  simp
                  exact fun hx => hij hx.symm
                rw [hne] at ha
                simp at ha
                omega
      · -- entry without the user bit (or with permission 0): install verbatim
        have hU' : permU pperm = false := by
          revert hU
          cases permU pperm <;> simp
        rcases hm : vm_try_map st child va (some ppa) pperm with stf0 | ⟨st1, child1⟩
        · have hstep : forkStep parent va (st, child)
              = Except.error (ForkFailKind.mapOther, stf0, child) := by
            simp only [forkStep]
            rw [if_neg hk]
            simp [hpe, entryPa, entryPerm, hU', hm]
          refine ⟨?_, ?_⟩
          · intro k stf childf he
            rw [hstep] at he
            have h1 : ((ForkFailKind.mapOther, stf0, child)
                : ForkFailKind × Kernel × AddrSpace) = (k, stf, childf) := by injection he
            rw [Prod.mk.injEq, Prod.mk.injEq] at h1
            obtain ⟨_, h1b, h1c⟩ := h1
            exact ⟨h1c.symm, fun _ => h1b ▸ (vm_try_map_error_eq _ _ _ _ _ _ hm)⟩
          · intro st' child' he
            rw [hstep] at he
            exact absurd he (by simp)
        · have hstep : forkStep parent va (st, child) = Except.ok (st1, child1) := by
            simp only [forkStep]
            rw [if_neg hk]
            simp [hpe, entryPa, entryPerm, hU', hm]
          obtain ⟨hc1, hc2, _, hc4, _, _, hc7, hc8⟩ :=
            vm_try_map_contrib st st1 child child1 va (some ppa) pperm hm hva hnew
          have hhit : ∀ i, leafHitF child1.entries i va = false := by
            intro i
            by_cases hp0 : pperm = 0
            · obtain ⟨hceq, _⟩ := hc8 hp0
              rw [hceq]
              simp [leafHitF, hnew]
            · have hev := hc7 hp0
              simp only [Option.getD_some] at hev
              unfold leafHitF
              rw [hev]
              simp [hU']
          refine ⟨?_, ?_⟩
          · intro k stf childf he
            rw [hstep] at he
            exact absurd he (by simp)
          · intro st' child' he
            rw [hstep] at he
            have h1 : ((st1, child1) : Kernel × AddrSpace) = (st', child') := by injection he
            rw [Prod.mk.injEq] at h1
            obtain ⟨h1a, h1b⟩ := h1
            subst h1a
            subst h1b
            refine ⟨fun i => ?_, hc2, hc4⟩
            have ha := hc1 i
            rw [hhit i] at ha
            simp at ha
            have hb := hinv i
            omega

/-- The fork loop maintains the refcount invariant, and on any failure other
than a post-allocation mapping failure the state it hands to teardown still
satisfies it with the failing child's contribution. -/
lemma forkLoop_spec (parent : AddrSpace) (pre : Kernel) :
    ∀ (l : List Nat) (st : Kernel) (child : AddrSpace),
      l.Nodup → (∀ va ∈ l, va ∈ vaPages) →
      (∀ va ∈ l, child.entries va = none) →
      (∀ va ∈ l, goodVA parent va = true) →
      (∀ i, st.physpages i = pre.physpages i + exitContrib child i) →
      (∀ i, pre.physpages i + 65536 < RCMOD) →
      child.tables.length + l.length ≤ 2 * vaPages.length →
      ∀ k stf childf,
        forkLoop parent l (st, child) = Except.error (k, stf, childf) →
        k ≠ ForkFailKind.mapCopy →
        (∀ i, stf.physpages i = pre.physpages i + exitContrib childf i) ∧
        childf.tables.length ≤ 2 * vaPages.length := by
  intro l
  induction l with
  | nil =>
    intro st child _ _ _ _ _ _ _ k stf childf herr _
    simp [forkLoop] at herr
  | cons va t ih =>
    intro st child hnd hsub hnone hgood hinv hcap htab k stf childf herr hne
    have hvam : va ∈ vaPages := hsub va (List.mem_cons_self va t)
    have hstep := forkStep_spec parent va st child pre hvam
      (hnone va (List.mem_cons_self va t)) (hgood va (List.mem_cons_self va t))
      hinv hcap (by simp at htab; omega)
    rcases hs : forkStep parent va (st, child) with e | acc'
    · rcases e with ⟨k0, stf0, childf0⟩
      simp only [forkLoop, hs] at herr
      have h1 : ((k0, stf0, childf0) : ForkFailKind × Kernel × AddrSpace)
          = (k, stf, childf) := by injection herr
      rw [Prod.mk.injEq, Prod.mk.injEq] at h1
      obtain ⟨h1a, h1b, h1c⟩ := h1
      subst h1a
      subst h1b
      subst h1c
      obtain ⟨hcv, hmc⟩ := hstep.1 k0 stf0 childf0 hs
      subst hcv
      rw [hmc hne]
      refine ⟨hinv, ?_⟩
      simp at htab
      omega
    · rcases acc' with ⟨st1, child1⟩
      simp only [forkLoop, hs] at herr
      obtain ⟨hinv1, hlen1, hpres⟩ := hstep.2 st1 child1 hs
      refine ih st1 child1 (List.nodup_cons.mp hnd).2
        (fun v hv => hsub v (List.mem_cons_of_mem va hv))
        (fun v hv => ?_)
        (fun v hv => hgood v (List.mem_cons_of_mem va hv))
        hinv1 hcap ?_ k stf childf herr hne
      · have hvne : v ≠ va := by
          rintro rfl
          exact (List.nodup_cons.mp hnd).1 hv
        rw [hpres v hvne]
        exact hnone v (List.mem_cons_of_mem va hv)
      · simp at htab
        omega

lemma kalloc_pagetable_some (st : Kernel) (asp : AddrSpace) (st1 : Kernel)
    (h : kalloc_pagetable st = (some asp, st1)) :
    ∃ pa, asp = ⟨pa, [], fun _ => none⟩ ∧ pa ≠ 0 ∧
      st.physpages (pa / PAGESIZE) = 0 ∧
      st1.physpages = setrc st.physpages (pa / PAGESIZE) 1 ∧
      st1.ptable = st.ptable ∧ st1.currentPid = st.currentPid := by
  unfold kalloc_pagetable at h
  rcases hk : kalloc PAGESIZE st with ⟨o, st'⟩
  rcases o with _ | pa
  · rw [hk] at h
    exact absurd h (by simp)
  · rw [hk] at h
    injection h with h1 h2
    injection h1 with h1
    obtain ⟨_, hz, hphys, hpt, hcur, _⟩ := kalloc_page_some st pa st' hk
    refine ⟨pa, h1.symm, kalloc_some_ne_zero st pa st' hk, hz, ?_, ?_, ?_⟩ <;> rw [← h2]
    · exact hphys
    · exact hpt
    · exact hcur

lemma exitContrib_fresh (pa : Nat) (hpa : pa ≠ 0) (i : Nat) :
    exitContrib ⟨pa, [], fun _ => none⟩ i = if pa / PAGESIZE = i then 1 else 0 := by
  unfold exitContrib cntRoot
  have h1 : vaPages.countP (leafHitF (fun _ => none) i) = 0 := by
    apply List.countP_eq_zero.mpr
    intro a _
    simp [leafHitF]
  rw [h1]
  by_cases hip : pa / PAGESIZE = i <;> simp [hip, hpa]

/-- C1 (amended): when fork fails in mid-loop for any reason other than a
mapping failure right after the allocation of a writable-page copy —
i.e. when a frame allocation returns null, or a mapping attempt fails in
the kernel-copy, read-only-share or non-user branch — `syscall_exit` is
invoked on the partially built child, fork returns −1, and every frame's
refcount equals its value immediately before the fork call. -/
theorem fork_midloop_failure_restores_refcounts
    (st : Kernel) (k : ForkFailKind) (stf : Kernel) (parent : AddrSpace)
    (hpar : (st.ptable st.currentPid).pagetable = some parent)
    (hgood : ∀ va ∈ vaPages, goodVA parent va = true)
    (hcap : ∀ i, st.physpages i + 65536 < RCMOD)
    (hrun : forkRun st = ForkOutcome.failMid k stf)
    (hk : k ≠ ForkFailKind.mapCopy) :
    syscall_fork st = (-1, stf) ∧ ∀ i, stf.physpages i = st.physpages i := by
  have hfork : syscall_fork st = (-1, stf) := by
    unfold syscall_fork
    rw [hrun]
  refine ⟨hfork, ?_⟩
  unfold forkRun at hrun
  rcases hfs : findFreeSlot st with _ | pid
  · rw [hfs] at hrun
    exact absurd hrun (by simp)
  · rw [hfs] at hrun
    rcases hkp : kalloc_pagetable st with ⟨o, st1⟩
    rcases o with _ | child0
    · rw [hkp] at hrun
      exact absurd hrun (by simp)
    · rw [hkp] at hrun
      rw [hpar] at hrun
      simp only [Option.getD_some] at hrun
      obtain ⟨pa, hasp, hpa0, hz, hphys, hpt1, _⟩ := kalloc_pagetable_some st child0 st1 hkp
      rcases hlp : forkLoop parent vaPages (setPagetable st1 pid (some child0), child0)
        with e | acc
      · rcases e with ⟨k0, stf0, childf0⟩
        rw [hlp] at hrun
        injection hrun with hk0 hstf
        subst hk0
        have hinv0 : ∀ i, (setPagetable st1 pid (some child0)).physpages i
            = st.physpages i + exitContrib child0 i := by
          intro i
          rw [setPagetable_physpages, hphys, hasp, exitContrib_fresh pa hpa0 i]
          by_cases hij : i = pa / PAGESIZE
          · subst hij
            rw [setrc_self, if_pos rfl, hz]
          · rw [setrc_other _ _ _ _ hij, if_neg (fun hx => hij hx.symm)]
            omega
        have hnone0 : ∀ va ∈ vaPages, child0.entries va = none := by
          intro va _
          rw [hasp]
        have hlen0 : child0.tables.length + vaPages.length ≤ 2 * vaPages.length := by
          rw [hasp]
          simp only [List.length_nil, Nat.zero_add]
          omega
        obtain ⟨hinvf, hlenf⟩ := forkLoop_spec parent st vaPages
          (setPagetable st1 pid (some child0)) child0 vaPages_nodup (fun _ hv => hv)
          hnone0 hgood hinv0 hcap hlen0 k0 stf0 childf0 hlp hk
        have hptf : ((setPagetable stf0 pid (some childf0)).ptable pid).pagetable
            = some childf0 := by
          simp [setPagetable]
        have hbndf : ∀ i, (setPagetable stf0 pid (some childf0)).physpages i < RCMOD := by
          intro i
          rw [setPagetable_physpages]
          have h1 := hinvf i
          have h2 := hcap i
          have h3 := exitContrib_le childf0 i
          have h4 := vaPages_length
          omega
        have hrestore := syscall_exit_core_physpages (setPagetable stf0 pid (some childf0))
          pid childf0 st.physpages
          (fun i => by rw [setPagetable_physpages]; exact hinvf i) hbndf
        rw [syscall_exit_eq_core _ _ childf0 hptf] at hstf
        intro i
        rw [← hstf]
        exact hrestore i
      · rcases acc with ⟨st2, childF⟩
        rw [hlp] at hrun
        exact absurd hrun (by simp)

/-! ### Concrete machine states for witnesses and counterexamples -/

/-- Zeroed saved registers. -/
def regs0 : Regs := ⟨0, 0, 0, 0⟩

/-- Parent address space with two writable user pages (backed by frames
0x130000 and 0x131000) and nothing else mapped. -/
def parentW : AddrSpace :=
  ⟨0, [], fun va =>
    if va = 0x100000 then some (0x130000, 7)
    else if va = 0x101000 then some (0x131000, 7)
    else none⟩

/-- State with exactly three free allocatable frames (0x100000, 0x101000,
0x102000): fork allocates the child root, one writable-page copy and one
leaf-level table, then the allocation for the second writable page fails. -/
def stW : Kernel :=
  { physpages := fun i => if 259 ≤ i ∧ i ≤ 511 then 1 else 0
    mem := fun _ => 0
    ptable := fun i =>
      if i = 1 then ⟨1, regs0, PState.RUNNABLE, some parentW⟩
      else ⟨i, regs0, PState.FREE, none⟩
    currentPid := 1
    kernel_pt := ⟨0, [], fun _ => none⟩ }

/-- The state after the failing fork on `stW`. -/
def stWf : Kernel :=
  match forkRun stW with
  | ForkOutcome.failMid _ s => s
  | _ => stW

set_option maxRecDepth 40000 in
/-- Witness for the amended C1 theorem: on `stW` the fork loop fails with a
mid-loop `kalloc` returning null, fork returns −1, and every refcount is
restored. -/
theorem fork_midloop_failure_restores_refcounts_witness :
    syscall_fork stW = (-1, stWf) ∧ ∀ i, stWf.physpages i = stW.physpages i :=
  fork_midloop_failure_restores_refcounts stW ForkFailKind.allocCopy stWf parentW
    rfl
    (List.all_eq_true.mp (by rfl))
    (fun i => by
      show (if 259 ≤ i ∧ i ≤ 511 then 1 else 0) + 65536 < RCMOD
      split <;> norm_num [RCMOD])
    (by rfl)
    (by decide)

/-- Parent address space with a single writable user page. -/
def parentC : AddrSpace :=
  ⟨0, [], fun va => if va = 0x100000 then some (0x130000, 7) else none⟩

/-- State with exactly two free allocatable frames (0x100000 and 0x101000):
fork allocates the child root and the writable-page copy, then the mapping
of the copy fails because no frame is left for the leaf-level table. -/
def stC : Kernel :=
  { physpages := fun i => if 258 ≤ i ∧ i ≤ 511 then 1 else 0
    mem := fun _ => 0
    ptable := fun i =>
      if i = 1 then ⟨1, regs0, PState.RUNNABLE, some parentC⟩
      else ⟨i, regs0, PState.FREE, none⟩
    currentPid := 1
    kernel_pt := ⟨0, [], fun _ => none⟩ }

set_option maxRecDepth 40000 in
/-- Counterexample to C1 as stated: fork fails after the child's address
space was created (the mapping attempt for the freshly copied writable page
fails), fork returns −1, yet frame 0x101000 — allocated for the copy and
never mapped — keeps refcount 1 instead of returning to its pre-call
value 0.  The frame table is not identical to its pre-call state. -/
theorem fork_mapfail_leaks_copy_frame :
    (syscall_fork stC).1 = -1 ∧
    ((syscall_fork stC).2).physpages 257 = 1 ∧
    stC.physpages 257 = 0 := by
  refine ⟨?_, ?_, ?_⟩ <;> decide

/-! ### Allocator and dispatcher claims -/

lemma firstFreeFrom_none (st : Kernel) (fuel : Nat) :
    ∀ start : Nat, firstFreeFrom st start fuel = none →
      ∀ q, start ≤ q → q < start + fuel * PAGESIZE → (q - start) % PAGESIZE = 0 →
        ¬(allocatable_physical_address q = true ∧ st.physpages (q / PAGESIZE) = 0) := by
  induction fuel with
  | zero =>
    intro start _ q h1 h2 _
    have hps : PAGESIZE = 4096 := rfl
    rw [hps] at h2
    exact absurd h1 (by omega)
  | succ n ih =>
    intro start h q h1 h2 h3
    unfold firstFreeFrom at h
    by_cases hc :
        (allocatable_physical_address start && (st.physpages (start / PAGESIZE) == 0)) = true
    · rw [if_pos hc] at h
      exact absurd h (by simp)
    · rw [if_neg hc] at h
      intro hP
      have hps : PAGESIZE = 4096 := rfl
      by_cases hqs : q < start + PAGESIZE
      · have hq : q = start := by
          rw [hps] at hqs h3
          rcases Nat.eq_zero_or_pos (q - start) with h0 | hpos
          · omega
          · exfalso
            have := Nat.le_of_dvd hpos (Nat.dvd_of_mod_eq_zero h3)
            omega
        subst hq
        rw [hP.1, hP.2] at hc
        simp at hc
      · refine ih (start + PAGESIZE) h q (by omega) ?_ ?_ hP
        · rw [hps] at h2 ⊢
          omega
        · rw [hps] at h3 ⊢
          omega

/-- The simplest concrete state: every frame free, every byte zero. -/
def stK : Kernel :=
  { physpages := fun _ => 0
    mem := fun _ => 0
    ptable := fun i => ⟨i, ⟨0, 0, 0, 0⟩, PState.FREE, none⟩
    currentPid := 1
    kernel_pt := ⟨0, [], fun _ => none⟩ }

/-- C4 (amended): `kfree` contains no assertion at all.  For a non-null
frame it decrements the refcount unconditionally: from a positive count it
subtracts one, and from count 0 it silently wraps around to `RCMOD − 1`
(the unsigned underflow the claimed assertion was supposed to prevent);
other frames are untouched. -/
theorem kfree_unchecked_decrement (st : Kernel) (pa : Nat) (hpa : pa ≠ 0) :
    (st.physpages (pa / PAGESIZE) = 0 →
      (kfree st pa).physpages (pa / PAGESIZE) = RCMOD - 1 ∧
      (kfree st pa).physpages (pa / PAGESIZE) ≠ 0) ∧
    (∀ r, st.physpages (pa / PAGESIZE) = r + 1 → r + 1 < RCMOD →
      (kfree st pa).physpages (pa / PAGESIZE) = r) ∧
    (∀ i, i ≠ pa / PAGESIZE → (kfree st pa).physpages i = st.physpages i) := by
  refine ⟨?_, ?_, ?_⟩
  · intro h0
    rw [kfree_physpages st pa hpa, setrc_self, h0]
    norm_num [RCMOD]
  · intro r hr hlt
    rw [kfree_physpages st pa hpa, setrc_self, hr, unsigned_dec _ (by omega) hlt]
    omega
  · intro i hi
    rw [kfree_physpages st pa hpa, setrc_other _ _ _ _ hi]

/-- Witness for the amended C4 theorem at a concrete state: freeing frame
0x100000 while its refcount is 0 yields `RCMOD − 1`. -/
theorem kfree_unchecked_decrement_witness :
    (kfree stK 0x100000).physpages 256 = RCMOD - 1 :=
  ((kfree_unchecked_decrement stK 0x100000 (by decide)).1 rfl).1

/-- Counterexample to C4 as stated: `kfree` has no `refcount > 0` assertion
— called on a frame whose refcount is 0 it does not trap, and the decrement
from 0 happens silently, wrapping the counter to `RCMOD − 1 ≠ 0`. -/
theorem kfree_underflows_silently :
    stK.physpages 256 = 0 ∧
    (kfree stK 0x100000).physpages 256 = RCMOD - 1 ∧
    RCMOD - 1 ≠ 0 := by
  refine ⟨rfl, by decide, by decide⟩

/-- C8: `kalloc(PAGESIZE)` returns the lowest allocatable free physical
address, sets that frame's refcount to exactly 1 leaving all others
unchanged, fills the whole frame with the byte 0xCC leaving all other
memory unchanged, never returns a reserved (non-allocatable) frame, and
returns null exactly when no allocatable free frame exists. -/
theorem kalloc_spec (st : Kernel) :
    (∀ pa st', kalloc PAGESIZE st = (some pa, st') →
      allocatable_physical_address pa = true ∧
      st.physpages (pa / PAGESIZE) = 0 ∧
      pa % PAGESIZE = 0 ∧
      (∀ q, q < pa → q % PAGESIZE = 0 → allocatable_physical_address q = true →
        st.physpages (q / PAGESIZE) ≠ 0) ∧
      st'.physpages (pa / PAGESIZE) = 1 ∧
      (∀ i, i ≠ pa / PAGESIZE → st'.physpages i = st.physpages i) ∧
      (∀ a, pa ≤ a → a < pa + PAGESIZE → st'.mem a = 0xCC) ∧
      (∀ a, a < pa ∨ pa + PAGESIZE ≤ a → st'.mem a = st.mem a)) ∧
    (∀ st', kalloc PAGESIZE st = (none, st') →
      st' = st ∧
      ∀ q, q % PAGESIZE = 0 → q < MEMSIZE_PHYSICAL →
        allocatable_physical_address q = true → st.physpages (q / PAGESIZE) ≠ 0) := by
  constructor
  · intro pa st' h
    obtain ⟨hal, hz, hphys, _, _, _, hmem⟩ := kalloc_page_some st pa st' h
    have hscan : firstFreeFrom st 0 NPAGES = some pa := by
      unfold kalloc at h
      rw [if_neg (lt_irrefl PAGESIZE)] at h
      rcases hf : firstFreeFrom st 0 NPAGES with _ | pa0
      · rw [hf] at h
        injection h
      · rw [hf] at h
        injection h with h1 _
    obtain ⟨_, hmod, hmin⟩ := firstFreeFrom_minimal st NPAGES 0 pa hscan
    refine ⟨hal, hz, by simpa using hmod, ?_, ?_, ?_, ?_, ?_⟩
    · intro q hq1 hq2 hq3
      intro hq4
      exact hmin q (Nat.zero_le q) hq1 (by simpa using hq2) ⟨hq3, hq4⟩
    · rw [hphys, setrc_self]
    · intro i hi
      rw [hphys, setrc_other _ _ _ _ hi]
    · intro a ha1 ha2
      rw [hmem]
      unfold memsetRange
      rw [if_pos ⟨ha1, ha2⟩]
    · intro a ha
      rw [hmem]
      unfold memsetRange
      rw [if_neg (by omega)]
  · intro st' h
    refine ⟨kalloc_none_eq PAGESIZE st st' h, ?_⟩
    have hscan : firstFreeFrom st 0 NPAGES = none := by
      unfold kalloc at h
      rw [if_neg (lt_irrefl PAGESIZE)] at h
      rcases hf : firstFreeFrom st 0 NPAGES with _ | pa0
      · rfl
      · rw [hf] at h
        injection h
    intro q hq1 hq2 hq3 hq4
    refine firstFreeFrom_none st NPAGES 0 hscan q (Nat.zero_le q) ?_ (by simpa using hq1)
      ⟨hq3, hq4⟩
    have : NPAGES * PAGESIZE = MEMSIZE_PHYSICAL := by
      norm_num [NPAGES, PAGESIZE, MEMSIZE_PHYSICAL]
    omega

/-- Witness for C8 at a concrete all-free state: the allocator returns the
lowest allocatable frame 0x100000 with refcount set to 1 and the frame
filled with 0xCC, the byte after the frame untouched. -/
theorem kalloc_spec_witness :
    allocatable_physical_address 0x100000 = true ∧
    stK.physpages 256 = 0 ∧
    ((kalloc PAGESIZE stK).2).physpages 256 = 1 ∧
    ((kalloc PAGESIZE stK).2).mem 0x100FFF = 0xCC ∧
    ((kalloc PAGESIZE stK).2).mem 0x101000 = stK.mem 0x101000 := by
  have h := (kalloc_spec stK).1 0x100000 ((kalloc PAGESIZE stK).2) (by rfl)
  exact ⟨h.1, h.2.1, h.2.2.2.2.1,
    h.2.2.2.2.2.2.1 0x100FFF (by decide) (by decide),
    h.2.2.2.2.2.2.2 0x101000 (Or.inr (by decide))⟩

/-- C9: a request larger than `PAGESIZE` fails, returning the state
unmodified (no refcount or memory change); any request of `PAGESIZE` bytes
or less behaves exactly like a whole-page request. -/
theorem kalloc_oversize (st : Kernel) (sz : Nat) :
    (PAGESIZE < sz → kalloc sz st = (none, st)) ∧
    (sz ≤ PAGESIZE → kalloc sz st = kalloc PAGESIZE st) := by
  constructor
  · intro h
    unfold kalloc
    rw [if_pos h]
  · intro h
    unfold kalloc
    rw [if_neg (by omega), if_neg (lt_irrefl PAGESIZE)]

/-- Witness for C9 at concrete sizes: 4097 bytes fail with the state
untouched; 100 bytes allocate exactly as a whole page does. -/
theorem kalloc_oversize_witness :
    kalloc 4097 stK = (none, stK) ∧ kalloc 100 stK = kalloc PAGESIZE stK :=
  ⟨(kalloc_oversize stK 4097).1 (by decide), (kalloc_oversize stK 100).2 (by decide)⟩

/-- C10: every syscall number outside 1..6 falls into the `default:` case of
the dispatcher, which panics and halts the machine; in particular it never
returns a value (such as −1) to the calling process. -/
theorem syscall_default_panics (st : Kernel) (num : Nat)
    (h : num = 0 ∨ 6 < num) :
    syscall_dispatch st num = SysResult.panicked ∧
    ∀ v st', syscall_dispatch st num ≠ SysResult.ret v st' := by
  have h1 : syscall_dispatch st num = SysResult.panicked := by
    unfold syscall_dispatch
    rw [if_neg (show ¬num = SYSCALL_PANIC by simp only [SYSCALL_PANIC]; omega),
      if_neg (show ¬num = SYSCALL_GETPID by simp only [SYSCALL_GETPID]; omega),
      if_neg (show ¬num = SYSCALL_YIELD by simp only [SYSCALL_YIELD]; omega),
      if_neg (show ¬num = SYSCALL_PAGE_ALLOC by simp only [SYSCALL_PAGE_ALLOC]; omega),
      if_neg (show ¬num = SYSCALL_FORK by simp only [SYSCALL_FORK]; omega),
      if_neg (show ¬num = SYSCALL_EXIT by simp only [SYSCALL_EXIT]; omega)]
  refine ⟨h1, ?_⟩
  intro v st' hc
  rw [h1] at hc
  exact SysResult.noConfusion hc

/-- Witness for C10: syscall number 7 panics the machine. -/
theorem syscall_default_panics_witness :
    syscall_dispatch stK 7 = SysResult.panicked :=
  (syscall_default_panics stK 7 (by omega)).1

/-! ### PAGE_ALLOC claims -/

/-- A process address space holding only its root frame at 0x100000. -/
def aspB7 : AddrSpace := ⟨0x100000, [], fun _ => none⟩

/-- State whose current process (pid 1) owns only its root frame; all other
allocatable frames are free. -/
def stB7 : Kernel :=
  { physpages := fun i => if i = 256 then 1 else 0
    mem := fun _ => 0
    ptable := fun i =>
      if i = 1 then ⟨1, regs0, PState.RUNNABLE, some aspB7⟩
      else ⟨i, regs0, PState.FREE, none⟩
    currentPid := 1
    kernel_pt := ⟨0, [], fun _ => none⟩ }

/-- C7 (amended): `syscall_page_alloc` returns −1, leaving the state
untouched, for every address that is below `PROC_START_ADDR`, at or above
`MEMSIZE_VIRTUAL`, or not page-aligned; at the boundaries,
`PROC_START_ADDR − 1`, `MEMSIZE_VIRTUAL` and `MEMSIZE_VIRTUAL − PAGESIZE + 1`
are rejected, while `MEMSIZE_VIRTUAL − PAGESIZE` (the stack page) and
`PROC_START_ADDR` — which is page-aligned and in range — both succeed when
frames are available. -/
theorem page_alloc_validation (st : Kernel) (addr : Nat) :
    ((addr < PROC_START_ADDR ∨ MEMSIZE_VIRTUAL ≤ addr ∨ addr % 4096 ≠ 0) →
      syscall_page_alloc st addr = (-1, st)) ∧
    (syscall_page_alloc stB7 (PROC_START_ADDR - 1)).1 = -1 ∧
    (syscall_page_alloc stB7 MEMSIZE_VIRTUAL).1 = -1 ∧
    (syscall_page_alloc stB7 (MEMSIZE_VIRTUAL - PAGESIZE + 1)).1 = -1 ∧
    (syscall_page_alloc stB7 (MEMSIZE_VIRTUAL - PAGESIZE)).1 = 0 ∧
    (syscall_page_alloc stB7 PROC_START_ADDR).1 = 0 := by
  refine ⟨?_, by decide, by decide, by decide, by decide, by decide⟩
  intro h
  unfold syscall_page_alloc
  rw [if_pos h]

/-- Witness for the amended C7 theorem: an unaligned address is rejected
with the state unchanged. -/
theorem page_alloc_validation_witness :
    syscall_page_alloc stB7 0x123456 = (-1, stB7) :=
  (page_alloc_validation stB7 0x123456).1 (by decide)

/-- Counterexample to C7 as stated: `PROC_START_ADDR` is page-aligned and in
range, so `PAGE_ALLOC(PROC_START_ADDR)` does not return −1 (it succeeds)
even though the claim lists it among the rejected boundary inputs. -/
theorem page_alloc_proc_start_not_rejected :
    ¬(syscall_page_alloc stB7 PROC_START_ADDR).1 = -1 := by
  decide

/-- The current process of `stC2` already has a mapping at
`PROC_START_ADDR + 0x10000`: virtual page 0x110000 ↦ frame 0x120000,
with the leaf-level table for its region present. -/
def aspC2 : AddrSpace :=
  ⟨0x100000, [(0, 0x101000)],
    fun va => if va = 0x110000 then some (0x120000, 7) else none⟩

/-- State for the re-allocation scenario: root, table and mapped frame each
have refcount 1, everything else is free. -/
def stC2 : Kernel :=
  { physpages := fun i => if i = 256 ∨ i = 257 ∨ i = 288 then 1 else 0
    mem := fun _ => 0
    ptable := fun i =>
      if i = 1 then ⟨1, regs0, PState.RUNNABLE, some aspC2⟩
      else ⟨i, regs0, PState.FREE, none⟩
    currentPid := 1
    kernel_pt := ⟨0, [], fun _ => none⟩ }

/-- C2: evaluation of `syscall_page_alloc` at the failing input.  A second
`PAGE_ALLOC` at an address that is already mapped returns 0 and installs a
fresh zeroed frame (0x102000, refcount 258 becomes 1), but the previously
installed frame 0x120000 is never passed to `kfree`: its refcount stays 1
while it is no longer mapped anywhere, so the net number of allocated
frames grows by one instead of staying unchanged. -/
theorem page_alloc_remap_leaks_old_frame :
    (syscall_page_alloc stC2 0x110000).1 = 0 ∧
    ((syscall_page_alloc stC2 0x110000).2).physpages 288 = 1 ∧
    stC2.physpages 288 = 1 ∧
    ((syscall_page_alloc stC2 0x110000).2).physpages 258 = 1 ∧
    stC2.physpages 258 = 0 ∧
    userRead (syscall_page_alloc stC2 0x110000).2 1 0x110000 = some 0 := by
  refine ⟨by decide, by decide, by decide, by decide, by decide, by decide⟩

/-! ### Exit claims -/

lemma exitLeafStep_ptable (pt : AddrSpace) (st : Kernel) (va : Nat) :
    (exitLeafStep pt st va).ptable = st.ptable := by
  unfold exitLeafStep
  rcases pt.entries va with _ | ⟨pa, perm⟩
  · rfl
  · show (if (permU perm && !(va == CONSOLE_ADDR)) = true
        then kfree st pa else st).ptable = st.ptable
    by_cases hc : (permU perm && !(va == CONSOLE_ADDR)) = true
    · rw [if_pos hc]
      exact kfree_ptable _ _
    · rw [if_neg hc]

lemma foldl_exitLeafStep_ptable (pt : AddrSpace) :
    ∀ (l : List Nat) (st : Kernel), (l.foldl (exitLeafStep pt) st).ptable = st.ptable := by
  intro l
  induction l with
  | nil => intro st; rfl
  | cons va t ih =>
    intro st
    rw [List.foldl_cons, ih, exitLeafStep_ptable]

lemma foldl_kfree_ptable :
    ∀ (ts : List (Nat × Nat)) (st : Kernel),
      (ts.foldl (fun s rt => kfree s rt.2) st).ptable = st.ptable := by
  intro ts
  induction ts with
  | nil => intro st; rfl
  | cons rt t ih =>
    intro st
    rw [List.foldl_cons, ih, kfree_ptable]

/-- C3 (amended): after `syscall_exit` the descriptor's state is `P_FREE`,
but the `root_page_table` field is left untouched — it still holds the
(now torn down) page table instead of being cleared to null, so the
"FREE implies null root" half of invariant P1 does not hold. -/
theorem exit_frees_state_but_keeps_pagetable (st : Kernel) (pid : Nat) (pt : AddrSpace)
    (hpt : (st.ptable pid).pagetable = some pt) :
    ((syscall_exit st pid).ptable pid).state = PState.FREE ∧
    ((syscall_exit st pid).ptable pid).pagetable = some pt := by
  rw [syscall_exit_eq_core st pid pt hpt]
  unfold syscall_exit_core markFree
  have hp : (kfree
      (pt.tables.foldl (fun s rt => kfree s rt.2)
        (vaPages.foldl (exitLeafStep pt) st))
      pt.root).ptable = st.ptable := by
    rw [kfree_ptable, foldl_kfree_ptable, foldl_exitLeafStep_ptable]
  constructor
  · simp [hp]
  · simp [hp, hpt]

/-- A runnable process descriptor (pid 2) owning just a root frame. -/
def aspC3 : AddrSpace := ⟨0x100000, [], fun _ => none⟩

/-- State on which pid 2 exits. -/
def stC3 : Kernel :=
  { physpages := fun i => if i = 256 then 1 else 0
    mem := fun _ => 0
    ptable := fun i =>
      if i = 2 then ⟨2, regs0, PState.RUNNABLE, some aspC3⟩
      else ⟨i, regs0, PState.FREE, none⟩
    currentPid := 2
    kernel_pt := ⟨0, [], fun _ => none⟩ }

/-- Witness for the amended C3 theorem at a concrete state. -/
theorem exit_frees_state_but_keeps_pagetable_witness :
    ((syscall_exit stC3 2).ptable 2).state = PState.FREE ∧
    ((syscall_exit stC3 2).ptable 2).pagetable = some aspC3 :=
  exit_frees_state_but_keeps_pagetable stC3 2 aspC3 rfl

set_option maxRecDepth 40000 in
/-- Counterexample to C3 as stated: after exit the descriptor is `P_FREE`
yet its `pagetable` field is still non-null. -/
theorem exit_does_not_clear_pagetable :
    ((syscall_exit stC3 2).ptable 2).state = PState.FREE ∧
    (((syscall_exit stC3 2).ptable 2).pagetable).isSome = true := by
  refine ⟨by decide, by decide⟩

/-! ### Fork skip claim -/

/-- C5: during fork's walk, a virtual address at or above `PROC_START_ADDR`
whose parent entry is absent is skipped completely: the iteration returns
the state and the child unchanged — no mapping is installed in the child,
no frame's refcount changes, and the iterator's no-physical-page sentinel
is never treated as a real frame. -/
theorem fork_skips_absent_entries (parent : AddrSpace) (va : Nat) (st : Kernel)
    (child : AddrSpace) (hva : PROC_START_ADDR ≤ va)
    (habs : parent.entries va = none) :
    forkStep parent va (st, child) = Except.ok (st, child) := by
  simp only [forkStep]
  rw [if_neg (by omega)]
  simp [vm_try_map, habs, entryPa, entryPerm, permW, permU, Nat.zero_testBit]

/-- Witness for C5 at a concrete absent address in the user range. -/
theorem fork_skips_absent_entries_witness :
    forkStep parentC 0x200000 (stK, aspC3) = Except.ok (stK, aspC3) :=
  fork_skips_absent_entries parentC 0x200000 stK aspC3 (by decide) rfl

/-! ### Loader claims -/

lemma initSegData_noneAcc (asp : AddrSpace) :
    ∀ l : List Segment, l.foldl (segInitStep asp) none = none := by
  intro l
  induction l with
  | nil => rfl
  | cons s t ih =>
    rw [List.foldl_cons]
    exact ih

/-- Bytes outside the physical ranges written by a list of segments are
preserved by segment initialization. -/
lemma initSegData_frame (asp : AddrSpace) :
    ∀ (l : List Segment) (m m' : Nat → Nat) (a : Nat),
      l.foldl (segInitStep asp) (some m) = some m' →
      (∀ s ∈ l, s.data_size ≤ s.size) →
      (∀ s ∈ l, ∀ q0, paOf asp s.va = some q0 → a < q0 ∨ q0 + s.size ≤ a) →
      m' a = m a := by
  intro l
  induction l with
  | nil =>
    intro m m' a h _ _
    injection h with h
    rw [← h]
  | cons s t ih =>
    intro m m' a h hds hdis
    rw [List.foldl_cons] at h
    rcases hp : paOf asp s.va with _ | q0
    · have hstep : segInitStep asp (some m) s
          = if s.size == 0 && s.data_size == 0 then some m else none := by
        unfold segInitStep
        rw [hp]
      rw [hstep] at h
      by_cases hz : (s.size == 0 && s.data_size == 0) = true
      · rw [if_pos hz] at h
        exact ih m m' a h (fun x hx => hds x (List.mem_cons_of_mem s hx))
          (fun x hx => hdis x (List.mem_cons_of_mem s hx))
      · rw [if_neg hz] at h
        rw [initSegData_noneAcc asp t] at h
        exact absurd h (by simp)
    · have hstep : segInitStep asp (some m) s
          = some (memcpyData (memsetRange m q0 s.size 0) q0 s.data s.data_size) := by
        unfold segInitStep
        rw [hp]
      rw [hstep] at h
      have hd := hdis s (List.mem_cons_self s t) q0 hp
      have hds' := hds s (List.mem_cons_self s t)
      have hm1 : memcpyData (memsetRange m q0 s.size 0) q0 s.data s.data_size a = m a := by
        unfold memcpyData memsetRange
        rw [if_neg (by omega), if_neg (by omega)]
      rw [← hm1]
      exact ih _ m' a h (fun x hx => hds x (List.mem_cons_of_mem s hx))
        (fun x hx => hdis x (List.mem_cons_of_mem s hx))

/-- C6 (amended): the segment-initialization loop zeroes `seg.size` bytes and
then copies `seg.data_size` initialized bytes starting at the physical
address backing `seg.va` (a physically contiguous range, not the virtual
range).  Provided the segment's pages are physically contiguous from that
address and the segments' physical ranges are pairwise disjoint, every
virtual byte of the segment beyond `data_size` (the bss tail) reads zero
after initialization. -/
theorem loader_zero_fills_bss (asp : AddrSpace) (segs : List Segment)
    (m m' : Nat → Nat) (seg : Segment) (p0 : Nat)
    (hrun : initSegData asp segs m = some m')
    (hmem : seg ∈ segs)
    (hnodup : segs.Nodup)
    (hds : ∀ s ∈ segs, s.data_size ≤ s.size)
    (hp0 : paOf asp seg.va = some p0)
    (hdisj : ∀ s ∈ segs, s ≠ seg → ∀ q0, paOf asp s.va = some q0 →
        p0 + seg.size ≤ q0 ∨ q0 + s.size ≤ p0)
    (hcont : ∀ off, off < seg.size → paOf asp (seg.va + off) = some (p0 + off))
    (va : Nat) (hva1 : seg.va + seg.data_size ≤ va) (hva2 : va < seg.va + seg.size) :
    paOf asp va = some (p0 + (va - seg.va)) ∧ m' (p0 + (va - seg.va)) = 0 := by
  have hdsseg := hds seg hmem
  constructor
  · have hc := hcont (va - seg.va) (by omega)
    have hh : seg.va + (va - seg.va) = va := by omega
    rw [hh] at hc
    exact hc
  · obtain ⟨l1, l2, hsplit⟩ := List.append_of_mem hmem
    subst hsplit
    unfold initSegData at hrun
    rw [List.foldl_append, List.foldl_cons] at hrun
    rcases hpre : l1.foldl (segInitStep asp) (some m) with _ | m1
    · rw [hpre] at hrun
      have hnone : l2.foldl (segInitStep asp) (segInitStep asp none seg) = none :=
        initSegData_noneAcc asp l2
      rw [hnone] at hrun
      exact absurd hrun (by simp)
    · rw [hpre] at hrun
      have hstep : segInitStep asp (some m1) seg
          = some (memcpyData (memsetRange m1 p0 seg.size 0) p0 seg.data seg.data_size) := by
        unfold segInitStep
        rw [hp0]
      rw [hstep] at hrun
      set a := p0 + (va - seg.va) with ha
      have hval : memcpyData (memsetRange m1 p0 seg.size 0) p0 seg.data seg.data_size a
          = 0 := by
        unfold memcpyData memsetRange
        rw [if_neg (by omega), if_pos (by omega)]
      have hnl2 : seg ∉ l2 := by
        rw [List.nodup_append] at hnodup
        exact (List.nodup_cons.mp hnodup.2.1).1
      have hside : ∀ x ∈ l2, ∀ q0, paOf asp x.va = some q0 →
          a < q0 ∨ q0 + x.size ≤ a := by
        intro x hx q0 hq0
        have hxseg : x ≠ seg := fun hxe => hnl2 (hxe ▸ hx)
        have hd := hdisj x (by simp [hx]) hxseg q0 hq0
        omega
      have hframe := initSegData_frame asp l2 _ m' a hrun
        (fun x hx => hds x (by simp [hx])) hside
      rw [hframe, hval]

/-- Address space for the witness: one user page mapped. -/
def aspW6 : AddrSpace :=
  ⟨0x100000, [(0, 0x101000)],
    fun va => if va = 0x110000 then some (0x120000, 7) else none⟩

/-- A 16-byte segment with 5 initialized bytes at the start of that page. -/
def segW6 : Segment := ⟨0x110000, 16, fun _ => 0xAB, 5, true⟩

/-- Memory as `kalloc` leaves it: every byte 0xCC. -/
def mCC : Nat → Nat := fun _ => 0xCC

/-- The memory after initializing `segW6`. -/
def mW6 : Nat → Nat := (initSegData aspW6 [segW6] mCC).getD mCC

/-- Witness for the amended C6 theorem: byte 10 of the segment lies beyond
`data_size = 5` and reads zero after initialization. -/
theorem loader_zero_fills_bss_witness :
    paOf aspW6 0x11000A = some 0x12000A ∧ mW6 0x12000A = 0 :=
  loader_zero_fills_bss aspW6 [segW6] mCC mW6 segW6 0x120000
    (by rfl)
    (List.mem_singleton.mpr rfl)
    (List.nodup_singleton _)
    (by intro s hs; rw [List.mem_singleton] at hs; subst hs; decide)
    (by rfl)
    (by
      intro s hs hne
      rw [List.mem_singleton] at hs
      exact absurd hs hne)
    (by decide)
    0x11000A (by decide) (by decide)

/-- A kernel page table with no live mappings (so that the kernel-copy loop
of `process_setup` is a no-op in this scenario). -/
def kptP : AddrSpace := ⟨0, [], fun _ => none⟩

/-- One writable 2-page segment with one initialized page. -/
def pgmP : ProgramImage := ⟨[⟨0x100000, 0x2000, fun _ => 0xAB, 0x1000, true⟩], 0x100000⟩

/-- Boot-like state in which frame 0x103000 is already taken, so the two
pages of the segment end up in non-contiguous frames 0x102000 and
0x104000. -/
def stP : Kernel :=
  { physpages := fun i => if i = 259 then 1 else 0
    mem := fun _ => 0
    ptable := fun i => ⟨i, regs0, PState.FREE, none⟩
    currentPid := 1
    kernel_pt := kptP }

/-- The state produced by `process_setup` on `stP`. -/
def stPf : Kernel := (process_setup stP 1 pgmP).getD stP

set_option maxRecDepth 40000 in
/-- Counterexample to C6 as stated: `process_setup` zeroes and copies a
physically contiguous range starting at the frame of `seg.va`, not the
segment's virtual range.  With the segment's two pages in non-contiguous
frames, the byte at virtual address 0x101005 — inside the segment and
beyond `data_size`, i.e. bss — still reads the 0xCC fill pattern instead
of zero after loading. -/
theorem loader_bss_reads_cc :
    process_setup stP 1 pgmP = some stPf ∧
    userRead stPf 1 0x101005 = some 0xCC ∧
    (0xCC : Nat) ≠ 0 := by
  refine ⟨by rfl, by decide, by decide⟩

end Weensy
